import Mathlib

/-!
DebugInterfaceProxy: session registry, process launcher and command dispatch

A shallow embedding of `utils.c`, `mldproc.c`, `tracecmd.c` and of `cmdserver.c` (the line
reader, the handler loop, the response framing, the accept loop and the admission
counter), followed by theorems about it.

Modelling conventions:
* a C string is the list of its characters before the terminating NUL (`CStr`);
  a pointer that the source tests against `NULL` is an `Option`;
* the linked list `head .. tail` of `struct session` is the list of its nodes, in order;
* return codes are the integers `0` and `-1` of the source;
* the file system is the set of existing directories, kept as a list of path strings;
  `stat` finds a directory on the paths in it; on a path outside it `stat` fails with
  `ENOENT`, unless the environment (`stat_other`) makes it find a file that is no
  directory or fail with another `errno`;
* everything the operating system decides (clock, `mkdir`, `fork`, `kill`, `malloc`,
  socket writes) is read from an `Env` value, one per call;
* the C library functions the code calls (`strstr`, `strtok_r`, `isspace`, `snprintf`,
  `getopt_long`) are modelled from their documented behaviour;
* logging (`ALOGE`, `ALOGD`) has no effect on the state and is left out.
-/

set_option linter.unusedVariables false

namespace DIP

/-- A C string: the characters before the terminating NUL. -/
abbrev CStr := List Char

/-! ## Constants -/

/-- `MAX_PATH_LEN` of `utils.h`. -/
def MAX_PATH_LEN : Nat := 128

/-- `CMD_LINE_LENGTH` of `utils.h`. -/
def CMD_LINE_LENGTH : Nat := 256

/-- `MAX_ARGC` of `mldproc.c` and `tracecmd.c`. -/
def MAX_ARGC : Nat := 64

/-- `MLD_BIN` of `mldproc.c`. -/
def MLD_BIN : CStr := "/system/bin/mld".toList

/-- `MLD_OPT_DONT_DEMONIZE` of `mldproc.c`. -/
def MLD_OPT_DONT_DEMONIZE : CStr := "-d".toList

/-- `PATH_DELIM` of `mldproc.c`. -/
def PATH_DELIM : Char := '/'

/-- `MACC` of `mldproc.c`. -/
def MACC : CStr := "LOG_D_ACC".toList

/-- `MAPP` of `mldproc.c`. -/
def MAPP : CStr := "LOG_D_APP".toList

/-- `MLD_TOOL` of `tracecmd.c`. -/
def MLD_TOOL : CStr := " mld ".toList

/-- `OPTION_MARK` of `tracecmd.c`. -/
def OPTION_MARK : CStr := " -".toList

/-- Modelled from the spec: the header `tracecmd.h` that defines `TRACE_CMD` is not among
the sources; the wire protocol of the spec gives the trace prefix as `TRACE`. -/
def TRACE_CMD : CStr := "TRACE".toList

/-- `RES_OK` of `cmdserver.c`. -/
def RES_OK : CStr := "OK\n".toList

/-- `RES_KO` of `cmdserver.c`. -/
def RES_KO : CStr := "KO\n".toList

/-- `LINE_END` of `cmdserver.c`. -/
def LINE_END : CStr := "\n".toList

/-- `AUTOCONF_PATH` of `autoconf.c`, the initial value of `confpath`. -/
def AUTOCONF_PATH : CStr := "/sdcard/mld.conf".toList

/-! ## C library functions on strings -/

/-- The C library `isspace` in the "C" locale. -/
def isspace (c : Char) : Bool :=
  c == ' ' || c == '\t' || c == '\n' || c == '\x0b' || c == '\x0c' || c == '\r'

/-- First occurrence of `needle` in `hay`: the text before it and the text from it on. -/
def strstr_at : CStr → CStr → Option (CStr × CStr)
  | [], needle => if needle = [] then some ([], []) else none
  | c :: cs, needle =>
    if needle.isPrefixOf (c :: cs) then some ([], c :: cs)
    else match strstr_at cs needle with
      | some (pre, post) => some (c :: pre, post)
      | none => none

/-- The C library `strstr`: the suffix of `hay` starting at the first occurrence of
`needle`, or `none` (NULL). -/
def strstr (hay needle : CStr) : Option CStr :=
  (strstr_at hay needle).map Prod.snd

/-- `TOKEN_DELIM` of `utils.c`: space and tab. -/
def isDelim (c : Char) : Bool := c == ' ' || c == '\t'

/-- The C library `strtok_r` with delimiters `TOKEN_DELIM`, on the text still to scan:
skips leading delimiters, returns `none` (NULL) when nothing is left, else the token and
the text after the delimiter that ended it (the new `saveptr`). -/
def strtok_r (s : CStr) : Option (CStr × CStr) :=
  let s1 := s.dropWhile isDelim
  if s1 = [] then none
  else some (s1.takeWhile (fun c => !isDelim c), (s1.dropWhile (fun c => !isDelim c)).drop 1)

/-! ## utils.c -/

/-- The `for (i = 1; i < argv_size; i++)` loop of `split_cmd_line`: at most `k` further
tokens, stopping at the first NULL. -/
def split_loop : Nat → CStr → List CStr
  | 0, _ => []
  | k + 1, s =>
    match strtok_r s with
    | none => []
    | some (t, s') => t :: split_loop k s'

/-- `split_cmd_line` of `utils.c`: `none` is the return value -1, `some argv` is success
with `argc = argv.length`. -/
def split_cmd_line (cmd_line : CStr) (argv_size : Nat) : Option (List CStr) :=
  if argv_size = 0 then none
  else match strtok_r cmd_line with
    | none => none
    | some (t, s) => some (t :: split_loop (argv_size - 1) s)

/-- The fields of `struct tm` that `mldproc_start` prints. -/
structure tm where
  tm_year : Nat
  tm_mon : Nat
  tm_mday : Nat
  tm_hour : Nat
  tm_min : Nat
  tm_sec : Nat

/-- The `printf` conversion `%0<width>d` of a non-negative number. -/
def fmt_d (width n : Nat) : CStr :=
  let ds := Nat.toDigits 10 n
  List.replicate (width - ds.length) '0' ++ ds

/-! ## State and environment -/

/-- `struct session` of `mldproc.c` (the `next` pointer is the list structure). -/
structure session where
  pid : Nat
  name : CStr
deriving DecidableEq, Repr

/-- The state of the server process and of the parts of the system it acts on. -/
structure State where
  /-- The session list, `head` first. -/
  sessions : List session
  /-- The existing directories. -/
  dirs : List CStr
  /-- The buffer `confpath` of `autoconf.c`. -/
  confpath : CStr
  /-- The process identifiers `kill(pid, SIGTERM)` was called on, oldest first. -/
  killed : List Nat
  /-- The child processes created by `fork`, with the argument vector they execute. -/
  spawned : List (Nat × List CStr)
deriving DecidableEq, Repr

/-- What the operating system answers during one call. -/
structure Env where
  /-- Result of `get_time()`; `none` is NULL. -/
  time : Option tm
  /-- The paths outside the set of directories on which `stat` does not fail with
  `ENOENT`: it finds a file that is no directory, or fails with another `errno`. -/
  stat_other : CStr → Bool
  /-- The paths on which `mkdir` fails. -/
  mkdir_fails : CStr → Bool
  /-- Result of `fork()` in the server process: `none` is -1, `some pid` the child. -/
  fork : Option Nat
  /-- Whether `malloc` of the session node succeeds. -/
  malloc_node : Bool
  /-- Whether `malloc` of the session name succeeds. -/
  malloc_name : Bool
  /-- Whether `strdup` in `tracecmd_exec` succeeds. -/
  strdup_ok : Bool
  /-- Whether `kill` succeeds. -/
  kill_ok : Bool
  /-- How many bytes the socket accepts before `send` fails; `none` is no failure. -/
  send_budget : Option Nat

/-! ## mldproc.c: the session list -/

/-- `get_session` of `mldproc.c`: the first session with this name (the `prev` output is
only used by `remove_session`, modelled below on the list itself). -/
def get_session (name : CStr) : List session → Option session
  | [] => none
  | s :: rest => if s.name = name then some s else get_session name rest

/-- `session_active` of `mldproc.c`. -/
def session_active (name : CStr) (l : List session) : Bool :=
  (get_session name l).isSome

/-- `add_session` of `mldproc.c`: the new node goes last. -/
def add_session (env : Env) (pid : Nat) (name : CStr) (l : List session) :
    Int × List session :=
  if env.malloc_node then
    if env.malloc_name then (0, l ++ [⟨pid, name⟩])
    else (-1, l)
  else (-1, l)

/-- The unlinking done by `remove_session`: the first node with this name is removed. -/
def unlink_session (name : CStr) : List session → List session
  | [] => []
  | s :: rest => if s.name = name then rest else s :: unlink_session name rest

/-- `remove_session` of `mldproc.c`. -/
def remove_session (name : CStr) (l : List session) : Int × List session :=
  match get_session name l with
  | none => (-1, l)
  | some _ => (0, unlink_session name l)

/-- `add_mld_option` of `mldproc.c` on the first `argc` entries of `argv`: `none` is -1.
(The source is never called with `argc = 0`; there the model returns the option alone.) -/
def add_mld_option (option : CStr) (argv : List CStr) : Option (List CStr) :=
  if argv.any (fun a => a == option) then some argv
  else if argv.length ≥ MAX_ARGC then none
  else some (argv.take 1 ++ [option] ++ argv.drop 1)

/-! ## mldproc.c: directories -/

/-- `mkdir(p, mode)`: fails on the empty path and where the environment says so. -/
def mkdir (fails : CStr → Bool) (dirs : List CStr) (p : CStr) : Int × List CStr :=
  if p = [] ∨ fails p = true then (-1, dirs) else (0, dirs ++ [p])

/-- The step `if ((stat(p, &sb) == -1) && (ENOENT == errno)) mkdir(p, mode)` of `mkpath`.
`stat` succeeds on the directories of `dirs`; on the paths of `other` it succeeds on a file
that is no directory or fails with an `errno` other than `ENOENT`; in both cases `mkdir`
is not called and the step counts as done. On every other path `stat` fails with `ENOENT`
and `mkdir` is called. -/
def create_if_missing (other fails : CStr → Bool) (dirs : List CStr) (p : CStr) :
    Int × List CStr :=
  if p ∈ dirs then (0, dirs)
  else if other p = true then (0, dirs)
  else mkdir fails dirs p

/-- The `while ((pos = strchr(pos, PATH_DELIM)) != NULL)` loop of `mkpath`: `rest` is the
text from `pos` on and `i = pos - path`. -/
def mkpath_loop (other fails : CStr → Bool) (path : CStr) :
    CStr → Nat → List CStr → Int × List CStr
  | [], _, dirs => (0, dirs)
  | c :: cs, i, dirs =>
    if c = PATH_DELIM then
      if i = 0 then mkpath_loop other fails path cs (i + 1) dirs
      else if i ≥ MAX_PATH_LEN then (-1, dirs)
      else
        let r := create_if_missing other fails dirs (path.take i)
        if r.1 = 0 then mkpath_loop other fails path cs (i + 1) r.2
        else (-1, r.2)
    else mkpath_loop other fails path cs (i + 1) dirs

/-- `mkpath` of `mldproc.c`. (On the empty path the source reads `path[-1]`; the model
takes that byte to differ from `PATH_DELIM`, and `mkdir` then fails on the empty path.
`mldproc_start` only passes a token, which is not empty.) -/
def mkpath (other fails : CStr → Bool) (dirs : List CStr) (path : CStr) : Int × List CStr :=
  if path = [PATH_DELIM] then (0, dirs)
  else
    let r := mkpath_loop other fails path path 0 dirs
    if r.1 = 0 then
      if path.getLast? ≠ some PATH_DELIM then
        let r' := create_if_missing other fails r.2 path
        if r'.1 = 0 then (0, r'.2) else (-1, r'.2)
      else (0, r.2)
    else (-1, r.2)

/-! ## mldproc.c: public functions -/

/-- The two `snprintf(mld_cmd, CMD_LINE_LENGTH, ...)` calls of `mldproc_start`: the
command line completed with a log file name, cut to the size of the buffer. -/
def compose_cmd (time : Option tm) (cmd mcpu : CStr) : CStr :=
  (match time with
   | some t =>
     cmd ++ "/".toList ++ fmt_d 4 (t.tm_year + 1900) ++ "-".toList ++ fmt_d 2 (t.tm_mon + 1)
       ++ "-".toList ++ fmt_d 2 t.tm_mday ++ "_".toList ++ fmt_d 2 t.tm_hour ++ "h".toList
       ++ fmt_d 2 t.tm_min ++ "m".toList ++ fmt_d 2 t.tm_sec ++ "s_".toList ++ mcpu
       ++ ".log".toList
   | none => cmd ++ "/log_".toList ++ mcpu ++ ".log".toList).take (CMD_LINE_LENGTH - 1)

/-- The subsystem label chosen by `mldproc_start`. -/
def mcpu_of (cmd : CStr) : CStr :=
  if (strstr cmd MACC).isSome then "acc".toList
  else if (strstr cmd MAPP).isSome then "app".toList
  else []

/-- `mldproc_start` of `mldproc.c`, as seen by the server process (the child created by
`fork` is recorded in `spawned` with the vector it passes to `execve`). -/
def mldproc_start (env : Env) (st : State) (name cmd : Option CStr) : Int × State :=
  match name, cmd with
  | some name, some cmd =>
    if session_active name st.sessions then (-1, st)
    else
      let mld_cmd := compose_cmd env.time cmd (mcpu_of cmd)
      match split_cmd_line mld_cmd MAX_ARGC with
      | none => (-1, st)
      | some argv =>
        let r := mkpath env.stat_other env.mkdir_fails st.dirs (argv.getLast?.getD [])
        let st1 := { st with dirs := r.2 }
        if r.1 = -1 then (-1, st1)
        else
          match add_mld_option MLD_OPT_DONT_DEMONIZE argv with
          | none => (-1, st1)
          | some argv1 =>
            let argv2 := MLD_BIN :: argv1.drop 1
            match env.fork with
            | none => (-1, st1)
            | some pid =>
              let st2 := { st1 with spawned := st1.spawned ++ [(pid, argv2)] }
              let a := add_session env pid name st2.sessions
              if a.1 = -1 then (-1, st2)
              else (0, { st2 with sessions := a.2 })
  | _, _ => (-1, st)

/-- `mldproc_stop` of `mldproc.c`. The result of `kill` (`env.kill_ok`) only decides
whether a message is logged, so it does not occur in the body. -/
def mldproc_stop (env : Env) (st : State) (name : Option CStr) : Int × State :=
  match name with
  | none => (-1, st)
  | some name =>
    match get_session name st.sessions with
    | some mld =>
      let st1 := { st with killed := st.killed ++ [mld.pid] }
      let r := remove_session name st1.sessions
      if r.1 = -1 then (-1, st1)
      else (0, { st1 with sessions := r.2 })
    | none => (-1, st)

/-- The `while (p)` loop of `mldproc_query`: `resp` is the string in the response buffer
and `n` the position counter. The loop goes on only while `namelen + n < len`, and `len` is
a `uint32_t`, so the additions of the source never wrap and are taken in `Nat`. -/
def query_loop (len : Nat) : List session → CStr → Nat → Int × CStr
  | [], resp, _ => (0, resp)
  | p :: rest, resp, n =>
    let namelen := p.name.length + 1
    if namelen + n ≥ len then (-1, resp)
    else
      let resp1 := if n > 0 then resp ++ " ".toList else resp
      query_loop len rest (resp1 ++ p.name) (n + namelen)

/-- `mldproc_query` of `mldproc.c`: the return code and the string left in `resp`. -/
def mldproc_query (st : State) (resp : CStr) (len : Nat) : Int × CStr :=
  query_loop len st.sessions resp 0

/-! ## The C library option parser -/

/-- One entry of a `struct option` table with `flag = NULL`: `has_arg` is true for
`required_argument` and false for `no_argument`. -/
structure long_option where
  name : CStr
  has_arg : Bool
  val : Char

/-- What one call of `getopt_long` returns: `done` is -1, `bad` is `'?'`, and `opt c a` is
the option character `c` with `optarg = a`. -/
inductive GetoptResult where
  | done
  | bad
  | opt (c : Char) (optarg : Option CStr)

/-- The text of `optstring` after the first occurrence of `c` (the C library `strchr`,
one further). -/
def optstring_after (c : Char) : CStr → Option CStr
  | [] => none
  | d :: ds => if d = c then some ds else optstring_after c ds

/-- The C library `getopt_long` on a short option element `-c<more>`; `next` holds the
elements of `argv` that follow it. A character followed by `:` in `optstring` takes an
argument (the rest of the element, else the next element, else the call fails), one
followed by `::` takes it only from the rest of the element. -/
def getopt_short (optstring : CStr) (c : Char) (more : CStr) (next : List CStr) :
    GetoptResult :=
  if c = ':' ∨ c = ';' then GetoptResult.bad
  else
    match optstring_after c optstring with
    | none => GetoptResult.bad
    | some tail =>
      if tail.head? = some ':' then
        if more ≠ [] then GetoptResult.opt c (some more)
        else if (tail.drop 1).head? = some ':' then GetoptResult.opt c none
        else
          match next with
          | [] => GetoptResult.bad
          | a :: _ => GetoptResult.opt c (some a)
      else GetoptResult.opt c none

/-- The C library `getopt_long` on a long option element `--<body>`: an exact name wins,
otherwise the name must abbreviate exactly one entry of the table. -/
def getopt_longname (longopts : List long_option) (body : CStr) (next : List CStr) :
    GetoptResult :=
  let name := body.takeWhile (fun c => c ≠ '=')
  let value : Option CStr :=
    if name.length < body.length then some (body.drop (name.length + 1)) else none
  let exact := longopts.filter (fun o => o.name = name)
  let cands :=
    match exact with
    | e :: _ => [e]
    | [] => longopts.filter (fun o => name.isPrefixOf o.name)
  match cands with
  | [o] =>
    match value with
    | some v => if o.has_arg then GetoptResult.opt o.val (some v) else GetoptResult.bad
    | none =>
      if o.has_arg then
        match next with
        | [] => GetoptResult.bad
        | a :: _ => GetoptResult.opt o.val (some a)
      else GetoptResult.opt o.val none
  | _ => GetoptResult.bad

/-- The scan of the C library `getopt_long` over the elements after `argv[0]`, in the
default mode that permutes: elements that are no options (also a lone `-`) are passed
over, `--` ends the scan, and the first option element decides the result. -/
def getopt_scan (optstring : CStr) (longopts : List long_option) :
    List CStr → GetoptResult
  | [] => GetoptResult.done
  | a :: rest =>
    match a with
    | ['-', '-'] => GetoptResult.done
    | '-' :: '-' :: body => getopt_longname longopts body rest
    | '-' :: c :: more => getopt_short optstring c more rest
    | _ => getopt_scan optstring longopts rest

/-- The first call of the C library `getopt_long(argc, argv, optstring, longopts, NULL)`
after `optind = 0`. It is library code, modelled here from its documented behaviour. -/
def getopt_long (argv : List CStr) (optstring : CStr) (longopts : List long_option) :
    GetoptResult :=
  getopt_scan optstring longopts (argv.drop 1)

/-! ## tracecmd.c -/

/-- `enum tracecmd` of `tracecmd.c`. -/
inductive tracecmd where
  | TRACECMD_NONE
  | TRACECMD_START
  | TRACECMD_STOP
  | TRACECMD_QUERY
  | TRACECMD_CONFPATH
deriving DecidableEq, Repr

/-- `struct traceopt` of `tracecmd.c`. -/
structure traceopt where
  cmd : tracecmd
  startopt : Option CStr
  stopopt : Option CStr
deriving DecidableEq, Repr

/-- `sopts` of `tracecmd.c`. -/
def sopts : CStr := "s:k:qc".toList

/-- `lopts` of `tracecmd.c`. -/
def lopts : List long_option :=
  [⟨"start".toList, true, 's'⟩, ⟨"stop".toList, true, 'k'⟩,
   ⟨"query".toList, false, 'q'⟩, ⟨"confpath".toList, false, 'c'⟩]

/-- The `while ((opt = getopt_long(...)) != -1) { switch (opt) ...; break; }` block of
`tracecmd_exec`: the option data and `rc` after it. -/
def parse_option (argv : List CStr) : traceopt × Int :=
  match getopt_long argv sopts lopts with
  | GetoptResult.done => (⟨tracecmd.TRACECMD_NONE, none, none⟩, 0)
  | GetoptResult.bad => (⟨tracecmd.TRACECMD_NONE, none, none⟩, -1)
  | GetoptResult.opt c optarg =>
    if c = 's' then (⟨tracecmd.TRACECMD_START, optarg, none⟩, 0)
    else if c = 'k' then (⟨tracecmd.TRACECMD_STOP, none, optarg⟩, 0)
    else if c = 'q' then (⟨tracecmd.TRACECMD_QUERY, none, none⟩, 0)
    else if c = 'c' then (⟨tracecmd.TRACECMD_CONFPATH, none, none⟩, 0)
    else (⟨tracecmd.TRACECMD_NONE, none, none⟩, -1)

/-- The part of `tracecmd_exec` before the option parser: `trace_cmd` cut at the first
`MLD_TOOL`, and `mld_cmd` (NULL when there is none). -/
def cut_mld_cmd (cmd : CStr) : CStr × Option CStr :=
  match strstr_at cmd MLD_TOOL with
  | some (pre, post) => (pre, some (post.drop 1))
  | none => (cmd, none)

/-- `tracecmd_exec` of `tracecmd.c`: return code, string left in `resp`, new state. -/
def tracecmd_exec (env : Env) (st : State) (cmd : CStr) (resp : CStr) (len : Nat) :
    Int × CStr × State :=
  if (strstr cmd OPTION_MARK).isNone then (-1, resp, st)
  else if env.strdup_ok = false then (-1, resp, st)
  else
    let trace_cmd := (cut_mld_cmd cmd).1
    let mld_cmd := (cut_mld_cmd cmd).2
    match split_cmd_line trace_cmd MAX_ARGC with
    | none => (-1, resp, st)
    | some argv =>
      let trace := (parse_option argv).1
      let rc := (parse_option argv).2
      match trace.cmd with
      | tracecmd.TRACECMD_START =>
        match mld_cmd with
        | some m =>
          let r := mldproc_start env st trace.startopt (some m)
          (r.1, resp, r.2)
        | none => (-1, resp, st)
      | tracecmd.TRACECMD_STOP =>
        let r := mldproc_stop env st trace.stopopt
        (r.1, resp, r.2)
      | tracecmd.TRACECMD_QUERY =>
        let r := mldproc_query st resp len
        (r.1, r.2, st)
      | tracecmd.TRACECMD_CONFPATH => (rc, st.confpath.take len, st)
      | tracecmd.TRACECMD_NONE => (rc, resp, st)

/-! ## cmdserver.c: one command line -/

/-- `dispatch_command` of `cmdserver.c`. -/
def dispatch_command (env : Env) (st : State) (cmd : CStr) (resp : CStr) (len : Nat) :
    Int × CStr × State :=
  let cmd1 := cmd.dropWhile isspace
  if cmd1 = [] then (-1, resp, st)
  else if cmd1.take TRACE_CMD.length = TRACE_CMD then tracecmd_exec env st cmd1 resp len
  else (-1, resp, st)

/-- `send_buf` of `cmdserver.c` on a socket that accepts `budget` more bytes (`none`: any
number): return code, bytes that went out, budget left. -/
def send_buf (budget : Option Nat) (buf : CStr) : Int × CStr × Option Nat :=
  match budget with
  | none => (0, buf, none)
  | some b =>
    if buf.length ≤ b then (0, buf, some (b - buf.length))
    else (-1, buf.take b, some 0)

/-- `send_response` of `cmdserver.c`: return code and the bytes that went out. -/
def send_response (budget : Option Nat) (status : Int) (resp : CStr) (size : Nat) :
    Int × CStr :=
  if status = -1 then
    let r := send_buf budget RES_KO
    if r.1 = -1 then (-1, r.2.1) else (0, r.2.1)
  else
    let first : Int × CStr × Option Nat :=
      if resp ≠ [] then
        if resp.length + LINE_END.length < size then send_buf budget (resp ++ LINE_END)
        else (0, [], budget)
      else (0, [], budget)
    if first.1 = -1 then (-1, first.2.1)
    else
      let r := send_buf first.2.2 RES_OK
      if r.1 = -1 then (-1, first.2.1 ++ r.2.1) else (0, first.2.1 ++ r.2.1)

/-- The body of the `while (1)` loop of `client_thread` once a line has been read, on the
string held by `command` after the line feed was replaced: the response buffer is cleared,
the command dispatched and the response sent. Result: the return code of
`dispatch_command`, the string left in `response`, the return code of `send_response`, the
bytes written to the socket, and the new state. -/
def client_line (env : Env) (st : State) (command : CStr) :
    Int × CStr × Int × CStr × State :=
  let response : CStr := []
  let d := dispatch_command env st command response CMD_LINE_LENGTH
  let s := send_response env.send_budget d.1 d.2.1 CMD_LINE_LENGTH
  (d.1, d.2.1, s.1, s.2, d.2.2)

/-! ## Sequences of calls -/

/-- One call of the registry interface. -/
inductive Call where
  | start (name cmd : Option CStr)
  | stop (name : Option CStr)

/-- The return code and state after one call. -/
def do_call (env : Env) (st : State) : Call → Int × State
  | Call.start name cmd => mldproc_start env st name cmd
  | Call.stop name => mldproc_stop env st name

/-- The state after a sequence of calls, each with its environment. -/
def run_calls (st : State) : List (Env × Call) → State
  | [] => st
  | ec :: rest => run_calls (do_call ec.1 st ec.2).2 rest

/-- The uniqueness invariant of the registry. -/
def names_nodup (st : State) : Prop := (st.sessions.map session.name).Nodup

/-- The calls of a run, each with the code it returned. -/
def run_trace (st : State) : List (Env × Call) → List (Call × Int)
  | [] => []
  | ec :: rest =>
    (ec.2, (do_call ec.1 st ec.2).1) :: run_trace (do_call ec.1 st ec.2).2 rest

/-- Whether an entry of a trace is a successful stop of `n`. -/
def is_stop_of (n : CStr) : Call × Int → Bool
  | (Call.stop (some m), rc) => decide (m = n) && decide (rc = 0)
  | _ => false

/-- Whether the trace holds a successful stop of `n`. -/
def stopped_in (n : CStr) (t : List (Call × Int)) : Bool := t.any (is_stop_of n)

/-- The names of a trace whose successful start is not followed by a successful stop of
the same name, in the order of those starts (read off the trace, not the registry). -/
def active_names : List (Call × Int) → List CStr
  | [] => []
  | (Call.start (some n) _, rc) :: rest =>
    if rc = 0 ∧ stopped_in n rest = false then n :: active_names rest
    else active_names rest
  | _ :: rest => active_names rest

/-- The names separated by single spaces. -/
def space_separated (names : List CStr) : CStr := List.intercalate " ".toList names

/-- The value the counter `n` of `mldproc_query` reaches over the sessions `l`: every name
with one more byte for its separator. -/
def names_need (l : List session) : Nat := (l.map (fun s => s.name.length + 1)).sum

/-- A state with the given directories and nothing else: no session, no signal sent, no
process created, and the initial configuration path. -/
def init_state (dirs : List CStr) : State := ⟨[], dirs, AUTOCONF_PATH, [], []⟩

/-- An environment in which every system call succeeds; the clock reads
2026-11-01 12:00:00 and `fork` returns `pid`. -/
def env_ok (pid : Nat) : Env :=
  ⟨some ⟨126, 10, 1, 12, 0, 0⟩, fun _ => false, fun _ => false, some pid, true, true, true, true,
    none⟩

/-- Two starts, of `s1` and then `s2`, each with the log directory `/tmp/logs`. -/
def calls_s1_s2 : List (Env × Call) :=
  [(env_ok 100, Call.start (some "s1".toList) (some "mld -x /tmp/logs".toList)),
   (env_ok 101, Call.start (some "s2".toList) (some "mld -x /tmp/logs".toList))]

/-- The option data `tracecmd_exec` computes for a command line that has passed the
leading-whitespace step of `dispatch_command`, when it reaches the option parser. -/
def option_data (cmd : CStr) : Option traceopt :=
  match split_cmd_line (cut_mld_cmd cmd).1 MAX_ARGC with
  | none => none
  | some argv => some (parse_option argv).1

/-- The received line is read by the option parser as a start request for `n`. -/
def is_start_request (line n : CStr) : Prop :=
  option_data (line.dropWhile isspace) = some ⟨tracecmd.TRACECMD_START, some n, none⟩

/-- The received line is read by the option parser as a stop request for `n`. -/
def is_stop_request (line n : CStr) : Prop :=
  option_data (line.dropWhile isspace) = some ⟨tracecmd.TRACECMD_STOP, none, some n⟩

instance (line n : CStr) : Decidable (is_start_request line n) := by
  unfold is_start_request; infer_instance

instance (line n : CStr) : Decidable (is_stop_request line n) := by
  unfold is_stop_request; infer_instance

/-- The start request of the scenarios of the specification. -/
def line_start_s1 : CStr := "TRACE -s s1 /tmp/logs -e 4096 mld -x".toList

/-- The state after `line_start_s1` was handled in the initial state without directories. -/
def state_s1 : State := (client_line (env_ok 100) (init_state []) line_start_s1).2.2.2.2

/-- A registry with the sessions `s1`, `s2` and `s3`, created in this order. -/
def state_s1_s2_s3 : State :=
  ⟨[⟨100, "s1".toList⟩, ⟨101, "s2".toList⟩, ⟨102, "s3".toList⟩], [], AUTOCONF_PATH, [], []⟩

/-- An environment in which `kill` fails (the process has already exited). -/
def env_kill_fails : Env :=
  ⟨none, fun _ => false, fun _ => true, none, true, true, true, false, none⟩

/-- A registry with the sessions `s1` and `s2`, created in this order. -/
def state_s1_s2 : State :=
  ⟨[⟨100, "s1".toList⟩, ⟨101, "s2".toList⟩], [], AUTOCONF_PATH, [], []⟩

/-- The claim's failure reasons of `mldproc_start` for a name that is not active:
tokenization of the completed command line yields no argument, or `mkpath` on the last
argument fails, or the argument vector is full, or `fork` fails, or one of the two
allocations of `add_session` fails. -/
def resource_failure (env : Env) (st : State) (name cmd : CStr) : Prop :=
  session_active name st.sessions = false ∧
  (split_cmd_line (compose_cmd env.time cmd (mcpu_of cmd)) MAX_ARGC = none ∨
   ∃ argv, split_cmd_line (compose_cmd env.time cmd (mcpu_of cmd)) MAX_ARGC = some argv ∧
     ((mkpath env.stat_other env.mkdir_fails st.dirs (argv.getLast?.getD [])).1 = -1 ∨
      add_mld_option MLD_OPT_DONT_DEMONIZE argv = none ∨
      env.fork = none ∨ env.malloc_node = false ∨ env.malloc_name = false))

/-- An environment in which directories can be created but `fork` fails. -/
def env_fork_fails : Env :=
  ⟨some ⟨126, 10, 1, 12, 0, 0⟩, fun _ => false, fun _ => false, none, true, true, true, true,
    none⟩

/-- The received line is a start request for `n` with the forwarding command line `m`, as
`dispatch_command` and `tracecmd_exec` read it: after leading white space it begins with
`TRACE_CMD`, it holds `OPTION_MARK` and `MLD_TOOL`, `m` is the text from `mld` on, and the
first option of the part before is `-s` or `--start` with the argument `n`. -/
def start_request (line n m : CStr) : Prop :=
  (line.dropWhile isspace).take TRACE_CMD.length = TRACE_CMD ∧
  (strstr (line.dropWhile isspace) OPTION_MARK).isSome = true ∧
  (cut_mld_cmd (line.dropWhile isspace)).2 = some m ∧
  is_start_request line n

instance (line n m : CStr) : Decidable (start_request line n m) := by
  unfold start_request; infer_instance

/-- The vector `mldproc_start` hands to `execve` for the tokens `argv`: `add_mld_option`
with `MLD_OPT_DONT_DEMONIZE`, then `argv[0] = MLD_BIN`; `none` when `add_mld_option`
returns -1. -/
def final_argv (argv : List CStr) : Option (List CStr) :=
  match add_mld_option MLD_OPT_DONT_DEMONIZE argv with
  | none => none
  | some argv1 => some (MLD_BIN :: argv1.drop 1)

/-- The maximal runs of characters other than space and tab in `s`, in order: `s` is cut
at every delimiter and the pieces that are not empty are kept. -/
def token_runs (s : CStr) : List CStr := (s.splitOnP isDelim).filter (fun t => t ≠ [])

/-- The log file name `mldproc_start` appends after the `/`: the formatted local time and
the label, or `log_<label>.log` without a clock. -/
def log_file_name (time : Option tm) (mcpu : CStr) : CStr :=
  match time with
  | some t =>
    fmt_d 4 (t.tm_year + 1900) ++ "-".toList ++ fmt_d 2 (t.tm_mon + 1) ++ "-".toList
      ++ fmt_d 2 t.tm_mday ++ "_".toList ++ fmt_d 2 t.tm_hour ++ "h".toList
      ++ fmt_d 2 t.tm_min ++ "m".toList ++ fmt_d 2 t.tm_sec ++ "s_".toList ++ mcpu
      ++ ".log".toList
  | none => "log_".toList ++ mcpu ++ ".log".toList

/-- The extent of the writes of the `while (p)` loop of `mldproc_query`: one more than the
highest buffer index that its `strcat` calls write, 0 when nothing is written. A call
`strcat(resp, s)` writes the characters of `s` and the terminator at the indices from
`strlen(resp)` to `strlen(resp) + strlen(s)`. The arguments are those of `query_loop`. -/
def query_extent (len : Nat) : List session → CStr → Nat → Nat
  | [], _, _ => 0
  | p :: rest, resp, n =>
    let namelen := p.name.length + 1
    if namelen + n ≥ len then 0
    else
      let e1 := if n > 0 then resp.length + 1 + 1 else 0
      let resp1 := if n > 0 then resp ++ " ".toList else resp
      let e2 := resp1.length + p.name.length + 1
      max e1 (max e2 (query_extent len rest (resp1 ++ p.name) (n + namelen)))

/-- `ASCII_LF` of `cmdserver.c`. -/
def ASCII_LF : Char := '\n'

/-- The `while (1)` loop of `recv_line`. `stream` holds the bytes the peer still sends,
each `recv` of one byte taking the first; `ev` is what `recv` returns once they are used
up (0: the peer has shut down, -1: error); `line` holds the first `bytes_read` bytes of the
buffer. Every iteration takes one unit of fuel; `none` means the fuel ran out. The result
is the return value, the first bytes of the buffer, and the bytes not yet read. -/
def recv_line_loop (size : Nat) (ev : Int) : Nat → CStr → CStr → Option (Int × CStr × CStr)
  | 0, _, _ => none
  | fuel + 1, stream, line =>
    if line.length + 1 ≤ size then
      match stream with
      | [] => some (ev, line, [])
      | c :: rest =>
        if c = ASCII_LF then some (((line.length + 1 : Nat) : Int), line ++ [c], rest)
        else recv_line_loop size ev fuel rest (line ++ [c])
    else recv_line_loop size ev fuel stream []

/-- `recv_line` of `cmdserver.c`, with fuel for two iterations per byte of the stream and
two more. -/
def recv_line (ev : Int) (stream : CStr) (size : Nat) : Option (Int × CStr × CStr) :=
  if size < 1 then some (-1, [], stream)
  else recv_line_loop size ev (2 * stream.length + 2) stream []

/-- The string that a buffer holds: its bytes before the first NUL. -/
def c_string (buf : List Char) : CStr := buf.takeWhile (fun c => c ≠ '\x00')

/-- What one iteration of the `while (1)` loop of `client_thread` does. -/
structure Iteration where
  /-- Whether the loop goes on (no `break`). -/
  goes_on : Bool
  /-- The command handed to `dispatch_command`, if any. -/
  command : Option CStr
  /-- The bytes written to the socket. -/
  out : CStr
  /-- The state after the iteration. -/
  st : State
  /-- The bytes of the stream not yet read. -/
  rest : CStr
deriving DecidableEq, Repr

/-- One iteration of the `while (1)` loop of `client_thread`: `recv_line` into the buffer of
`CMD_LINE_LENGTH` bytes; a return value of 0 or below leaves the loop; otherwise the line
feed at `bytes_read - 1` is overwritten with NUL, the command is handled by `client_line`,
and the loop is left if `send_response` returned -1. -/
def client_iteration (env : Env) (ev : Int) (st : State) (stream : CStr) :
    Option Iteration :=
  match recv_line ev stream CMD_LINE_LENGTH with
  | none => none
  | some (bytes_read, buf, rest) =>
    if bytes_read = 0 then some ⟨false, none, [], st, rest⟩
    else if bytes_read < 0 then some ⟨false, none, [], st, rest⟩
    else
      let command := c_string (buf.take (bytes_read.toNat - 1))
      let r := client_line env st command
      if r.2.2.1 = -1 then some ⟨false, some command, r.2.2.2.1, r.2.2.2.2, rest⟩
      else some ⟨true, some command, r.2.2.2.1, r.2.2.2.2, rest⟩

/-- The `while (1)` loop of `client_thread`, one unit of fuel per iteration: `env i` is the
environment of iteration `i`, `out` the bytes written so far. The result is the state,
the bytes written and the number of iterations completed when the loop is left. -/
def client_thread_loop (env : Nat → Env) (ev : Int) :
    Nat → Nat → State → CStr → CStr → Option (State × CStr × Nat)
  | 0, _, _, _, _ => none
  | fuel + 1, i, st, stream, out =>
    match client_iteration (env i) ev st stream with
    | none => none
    | some it =>
      if it.goes_on then client_thread_loop env ev fuel (i + 1) it.st it.rest (out ++ it.out)
      else some (it.st, out ++ it.out, i + 1)

/-- A stream of 256 bytes `x`, then `TRACE -q` and a line feed. -/
def stream_oversize : CStr := List.replicate 256 'x' ++ "TRACE -q\n".toList

/-! ## cmdserver.c: the acceptor and the admission counter -/

/-- `MAX_CONNECTED_CLIENTS` of `cmdserver.c`. -/
def MAX_CONNECTED_CLIENTS : Nat := 3

/-- The part of the process state that `server_thread` and the entry and exit of
`client_thread` act on. A connection is named by its socket descriptor. -/
structure Server where
  /-- `client.ref_count`, a `uint32_t`. -/
  ref_count : Nat
  /-- The connection sockets that are open in the process. -/
  open_fds : List Nat
  /-- The descriptors held in cells obtained from `malloc` and not yet freed. -/
  cells : List Nat
  /-- The handler threads created by `pthread_create` that have not yet run
  `inc_ref_count`. -/
  started : List Nat
  /-- The handler threads between `inc_ref_count` and `dec_ref_count`. -/
  running : List Nat
  /-- Whether the accept loop of `server_thread` is still running. -/
  accepting : Bool
deriving DecidableEq, Repr

/-- What the system answers during one iteration of the accept loop. -/
structure AcceptEnv where
  /-- Whether `malloc` of the descriptor cell succeeds. -/
  malloc_ok : Bool
  /-- Result of `accept`: `none` is -1, `some fd` the new connection socket. -/
  accept : Option Nat
  /-- Whether `pthread_create` succeeds. -/
  create_ok : Bool

/-- `accept_connection` of `cmdserver.c`. -/
def accept_connection (s : Server) : Bool := s.ref_count < MAX_CONNECTED_CLIENTS

/-- `inc_ref_count` of `cmdserver.c`. -/
def inc_ref_count (s : Server) : Server :=
  { s with ref_count := (s.ref_count + 1) % 2 ^ 32 }

/-- `dec_ref_count` of `cmdserver.c`. -/
def dec_ref_count (s : Server) : Server :=
  if s.ref_count > 0 then { s with ref_count := s.ref_count - 1 } else s

/-- One iteration of the `while (1)` loop of `server_thread`. -/
def server_iteration (e : AcceptEnv) (s : Server) : Server :=
  if e.malloc_ok = false then { s with accepting := false }
  else
    match e.accept with
    | none => s
    | some fd =>
      let s1 := { s with open_fds := s.open_fds ++ [fd], cells := s.cells ++ [fd] }
      if accept_connection s1 then
        if e.create_ok then { s1 with started := s1.started ++ [fd] }
        else { s1 with cells := s1.cells.erase fd }
      else { s1 with cells := s1.cells.erase fd }

/-- The beginning of `client_thread` for the connection `fd`: `inc_ref_count`. -/
def client_enter (fd : Nat) (s : Server) : Server :=
  if fd ∈ s.started then
    inc_ref_count { s with started := s.started.erase fd, running := s.running ++ [fd] }
  else s

/-- The end of `client_thread` for the connection `fd`: `dec_ref_count`, `close(*fd)`,
`free(fd)`. -/
def client_leave (fd : Nat) (s : Server) : Server :=
  if fd ∈ s.running then
    let s1 := dec_ref_count { s with running := s.running.erase fd }
    { s1 with open_fds := s1.open_fds.erase fd, cells := s1.cells.erase fd }
  else s

/-- The steps of the acceptor and the handlers. -/
inductive Event where
  | accept (e : AcceptEnv)
  | enter (fd : Nat)
  | leave (fd : Nat)

/-- One step. -/
def server_step (s : Server) : Event → Server
  | Event.accept e => if s.accepting then server_iteration e s else s
  | Event.enter fd => client_enter fd s
  | Event.leave fd => client_leave fd s

/-- The state after a sequence of steps. -/
def run_events (s : Server) : List Event → Server
  | [] => s
  | ev :: rest => run_events (server_step s ev) rest

/-- The state set up by `cmdserver_start`, with the accept loop running. -/
def server_init : Server := ⟨0, [], [], [], [], true⟩

/-- An iteration of the accept loop in which `accept` returns `fd` and everything else
succeeds. -/
def accept_ok (fd : Nat) : Event := Event.accept ⟨true, some fd, true⟩

/-- Four connections are accepted before the first handler thread has run, then the four
handler threads run `inc_ref_count`. -/
def four_quick_connections : List Event :=
  [accept_ok 4, accept_ok 5, accept_ok 6, accept_ok 7,
   Event.enter 4, Event.enter 5, Event.enter 6, Event.enter 7]

/-- Three connections are accepted and their handlers run `inc_ref_count`. -/
def three_connections : List Event :=
  [accept_ok 4, Event.enter 4, accept_ok 5, Event.enter 5, accept_ok 6, Event.enter 6]

/-- A forwarding command line of 242 characters: `mld`, a word of 236 `a`, and the log
directory `t`. -/
def cmd_clipped : CStr := "mld ".toList ++ List.replicate 236 'a' ++ " t".toList

/-- A forwarding command line of 65 words: `mld`, `-d`, 62 words `a`, and the log
directory `t`. -/
def cmd_many_words : CStr :=
  "mld -d".toList ++ (List.replicate 62 " a".toList).flatten ++ " t".toList

theorem get_session_eq_none {name : CStr} {l : List session} :
    get_session name l = none ↔ name ∉ l.map session.name := by
  induction l with
  | nil => simp [get_session]
  | cons s rest ih =>
    by_cases h : s.name = name
    · simp [get_session, h]
    · simp [get_session, h, ih, Ne.symm h]

theorem add_session_cases (env : Env) (pid : Nat) (name : CStr) (l : List session) :
    add_session env pid name l = (0, l ++ [⟨pid, name⟩]) ∨ add_session env pid name l = (-1, l) := by
  unfold add_session
  split <;> [split; skip] <;> simp

theorem mldproc_start_cases (env : Env) (st : State) (name cmd : Option CStr) :
    ((mldproc_start env st name cmd).1 = -1 ∧
      (mldproc_start env st name cmd).2.sessions = st.sessions) ∨
    ∃ n pid, name = some n ∧ get_session n st.sessions = none ∧ env.fork = some pid ∧
      (mldproc_start env st name cmd).1 = 0 ∧
      (mldproc_start env st name cmd).2.sessions = st.sessions ++ [⟨pid, n⟩] := by
  cases name with
  | none => left; simp [mldproc_start]
  | some n =>
  cases cmd with
  | none => left; simp [mldproc_start]
  | some c =>
  by_cases hact : session_active n st.sessions = true
  · left; simp [mldproc_start, hact]
  cases hs : split_cmd_line (compose_cmd env.time c (mcpu_of c)) MAX_ARGC with
  | none => left; simp [mldproc_start, hact, hs]
  | some argv =>
  by_cases hm : (mkpath env.stat_other env.mkdir_fails st.dirs (argv.getLast?.getD [])).1 = -1
  · left; simp [mldproc_start, hact, hs, hm]
  cases ho : add_mld_option MLD_OPT_DONT_DEMONIZE argv with
  | none => left; simp [mldproc_start, hact, hs, hm, ho]
  | some argv1 =>
  cases hf : env.fork with
  | none => left; simp [mldproc_start, hact, hs, hm, ho, hf]
  | some pid =>
  rcases add_session_cases env pid n st.sessions with h | h
  · right
    refine ⟨n, pid, rfl, ?_, rfl, ?_⟩
    · simpa [session_active] using hact
    · simp [mldproc_start, hact, hs, hm, ho, hf, h]
  · left; simp [mldproc_start, hact, hs, hm, ho, hf, h]

theorem mldproc_stop_cases (env : Env) (st : State) (name : Option CStr) :
    (mldproc_stop env st name = (-1, st) ∧
      ∀ n, name = some n → get_session n st.sessions = none) ∨
    ∃ n s, name = some n ∧ get_session n st.sessions = some s ∧
      mldproc_stop env st name =
        (0, { st with killed := st.killed ++ [s.pid],
                      sessions := unlink_session n st.sessions }) := by
  cases name with
  | none => left; simp [mldproc_stop]
  | some n =>
  cases hg : get_session n st.sessions with
  | none => left; simp [mldproc_stop, hg]
  | some s =>
    right
    exact ⟨n, s, rfl, hg, by simp [mldproc_stop, hg, remove_session]⟩

theorem unlink_session_sublist (name : CStr) (l : List session) :
    (unlink_session name l).Sublist l := by
  induction l with
  | nil => simp [unlink_session]
  | cons s rest ih =>
    unfold unlink_session
    split
    · exact List.sublist_cons_self s rest
    · exact ih.cons_cons s

theorem do_call_names_nodup (env : Env) (st : State) (c : Call) (h : names_nodup st) :
    names_nodup (do_call env st c).2 := by
  unfold names_nodup at *
  cases c with
  | start name cmd =>
    rcases mldproc_start_cases env st name cmd with ⟨_, h2⟩ | ⟨n, pid, _, hn, _, _, h2⟩
    · simpa [do_call, h2] using h
    · simp only [do_call, h2, List.map_append, List.map_cons, List.map_nil]
      rw [get_session_eq_none] at hn
      exact List.Nodup.append h (List.nodup_singleton n) (by simpa using hn)
  | stop name =>
    rcases mldproc_stop_cases env st name with ⟨h2, _⟩ | ⟨n, s, _, _, h2⟩
    · simpa [do_call, h2] using h
    · simp only [do_call, h2]
      exact List.Nodup.sublist ((unlink_session_sublist n st.sessions).map session.name) h

theorem run_calls_names_nodup (calls : List (Env × Call)) (st : State) (h : names_nodup st) :
    names_nodup (run_calls st calls) := by
  induction calls generalizing st with
  | nil => simpa [run_calls] using h
  | cons ec rest ih =>
    simp only [run_calls]
    exact ih _ (do_call_names_nodup ec.1 st ec.2 h)

/-- C1: starting from the empty registry, after any finite sequence of `mldproc_start` and
`mldproc_stop` calls, with any answers of the operating system, no two sessions of the
registry have the same name. -/
theorem C1_registry_names_unique (calls : List (Env × Call)) (dirs : List CStr)
    (confpath : CStr) (killed : List Nat) (spawned : List (Nat × List CStr)) :
    ((run_calls ⟨[], dirs, confpath, killed, spawned⟩ calls).sessions.map
      session.name).Nodup :=
  run_calls_names_nodup calls _ (by simp [names_nodup])

theorem unlink_session_names (n : CStr) (l : List session)
    (h : (l.map session.name).Nodup) :
    (unlink_session n l).map session.name = (l.map session.name).filter (fun m => m ≠ n) := by
  induction l with
  | nil => simp [unlink_session]
  | cons s rest ih =>
    simp only [List.map_cons, List.nodup_cons] at h
    by_cases hs : s.name = n
    · subst hs
      simp only [unlink_session, if_true, List.map_cons]
      rw [List.filter_cons_of_neg (by simp)]
      symm
      rw [List.filter_eq_self]
      intro m hm
      have : m ≠ s.name := fun e => h.1 (e ▸ hm)
      simpa using this
    · simp only [unlink_session, hs, if_false, List.map_cons]
      rw [List.filter_cons_of_pos (by simpa using hs), ih h.2]

theorem run_calls_names (calls : List (Env × Call)) (st : State) (h : names_nodup st) :
    (run_calls st calls).sessions.map session.name =
      (st.sessions.map session.name).filter
          (fun m => !stopped_in m (run_trace st calls)) ++
        active_names (run_trace st calls) := by
  induction calls generalizing st with
  | nil => simp [run_calls, run_trace, active_names, stopped_in]
  | cons ec rest ih =>
    obtain ⟨env, c⟩ := ec
    have hnd := do_call_names_nodup env st c h
    simp only [run_calls, run_trace]
    rw [ih _ hnd]
    cases c with
    | start name cmd =>
      rcases mldproc_start_cases env st name cmd with ⟨h1, h2⟩ | ⟨n, pid, hname, hn, _, h1, h2⟩
      · have hst : ∀ m, stopped_in m ((Call.start name cmd, (do_call env st (Call.start name cmd)).1) ::
            run_trace (do_call env st (Call.start name cmd)).2 rest) =
            stopped_in m (run_trace (do_call env st (Call.start name cmd)).2 rest) := by
          intro m; simp [stopped_in, is_stop_of]
        simp only [hst]
        simp only [do_call] at *
        rw [h2]
        cases name with
        | none => simp [active_names]
        | some n => simp [active_names, h1]
      · subst hname
        have hst : ∀ m, stopped_in m ((Call.start (some n) cmd, (do_call env st (Call.start (some n) cmd)).1) ::
            run_trace (do_call env st (Call.start (some n) cmd)).2 rest) =
            stopped_in m (run_trace (do_call env st (Call.start (some n) cmd)).2 rest) := by
          intro m; simp [stopped_in, is_stop_of]
        simp only [hst]
        simp only [do_call] at *
        rw [h2]
        simp only [List.map_append, List.map_cons, List.map_nil, List.filter_append, active_names, h1]
        by_cases hsi : stopped_in n (run_trace (mldproc_start env st (some n) cmd).2 rest) = true
        · simp [hsi]
        · simp [hsi]
    | stop name =>
      rcases mldproc_stop_cases env st name with ⟨h2, _⟩ | ⟨n, s, hname, _, h2⟩
      · simp only [do_call] at *
        simp only [h2]
        have hst : ∀ m, stopped_in m ((Call.stop name, (-1 : Int)) :: run_trace st rest) =
            stopped_in m (run_trace st rest) := by
          intro m; cases name <;> simp [stopped_in, is_stop_of]
        simp only [hst]
        cases name <;> simp [active_names]
      · subst hname
        simp only [do_call] at *
        simp only [h2]
        have hst : ∀ m T, stopped_in m ((Call.stop (some n), (0 : Int)) :: T) =
            (decide (n = m) || stopped_in m T) := by
          intro m T; simp [stopped_in, is_stop_of]
        simp only [hst, active_names]
        rw [unlink_session_names n st.sessions h, List.filter_filter]
        congr 1
        apply List.filter_congr
        intro m _
        by_cases e : n = m
        · simp [e]
        · simp [e, Ne.symm e]

theorem flatten_intersperse_cons (sep a : CStr) (rest : List CStr) :
    (List.intersperse sep (a :: rest)).flatten = a ++ (rest.map (fun x => sep ++ x)).flatten := by
  induction rest generalizing a with
  | nil => simp
  | cons b rest ih =>
    rw [List.intersperse_cons_cons, List.flatten_cons, List.flatten_cons, ih]
    simp

theorem space_separated_eq (names : List CStr) :
    space_separated names = ((names.map (fun x => " ".toList ++ x)).flatten).drop 1 := by
  cases names with
  | nil => rfl
  | cons a rest =>
    unfold space_separated List.intercalate
    rw [flatten_intersperse_cons]
    rfl

theorem query_loop_ok (len : Nat) (l : List session) (resp : CStr) (n : Nat)
    (h : n + names_need l < len) :
    query_loop len l resp n =
      (0, resp ++ (((l.map session.name).map (fun x => " ".toList ++ x)).flatten).drop
        (if n = 0 then 1 else 0)) := by
  induction l generalizing resp n with
  | nil => simp [query_loop]
  | cons p rest ih =>
    simp only [names_need, List.map_cons, List.sum_cons] at h
    have h1 : ¬ (p.name.length + 1 + n ≥ len) := by omega
    have h2 : n + (p.name.length + 1) + names_need rest < len := by
      simp only [names_need]; omega
    simp only [query_loop, h1, if_false]
    rw [ih _ _ h2]
    by_cases hn : n = 0
    · subst hn; simp
    · have : n > 0 := Nat.pos_of_ne_zero hn
      simp [hn, this]

theorem names_need_le (l : List session) :
    names_need l ≤ (space_separated (l.map session.name)).length + 1 := by
  rw [space_separated_eq]
  have : ∀ l : List session, names_need l =
      (((l.map session.name).map (fun x => " ".toList ++ x)).flatten).length := by
    intro l
    induction l with
    | nil => rfl
    | cons p rest ih =>
      simp only [names_need, List.map_cons, List.sum_cons, List.flatten_cons, List.length_append] at *
      rw [ih]; simp; omega
  rw [this, List.length_drop]; omega

theorem mldproc_query_ok (st : State) (len : Nat)
    (h : (space_separated (st.sessions.map session.name)).length + 2 ≤ len) :
    mldproc_query st [] len = (0, space_separated (st.sessions.map session.name)) := by
  have := names_need_le st.sessions
  unfold mldproc_query
  rw [query_loop_ok len st.sessions [] 0 (by omega), space_separated_eq]
  simp

/-- C2: after any sequence of start and stop calls from the empty registry, a query into an
empty response buffer whose length exceeds the payload by at least two succeeds and leaves
exactly the names whose successful start is not followed by a successful stop, each once,
in the order of those starts, separated by single spaces. -/
theorem C2_query_lists_active_sessions (calls : List (Env × Call)) (dirs : List CStr)
    (confpath : CStr) (killed : List Nat) (spawned : List (Nat × List CStr)) (len : Nat)
    (hlen : (space_separated (active_names
      (run_trace ⟨[], dirs, confpath, killed, spawned⟩ calls))).length + 2 ≤ len) :
    mldproc_query (run_calls ⟨[], dirs, confpath, killed, spawned⟩ calls) [] len =
        (0, space_separated (active_names
          (run_trace ⟨[], dirs, confpath, killed, spawned⟩ calls))) ∧
      (active_names (run_trace ⟨[], dirs, confpath, killed, spawned⟩ calls)).Nodup := by
  have hn := run_calls_names calls ⟨[], dirs, confpath, killed, spawned⟩ (by simp [names_nodup])
  simp only [List.map_nil, List.filter_nil, List.nil_append] at hn
  have hd := run_calls_names_nodup calls ⟨[], dirs, confpath, killed, spawned⟩
    (by simp [names_nodup])
  unfold names_nodup at hd
  rw [hn] at hd
  refine ⟨?_, hd⟩
  rw [← hn] at hlen ⊢
  exact mldproc_query_ok _ len hlen

/-- C2 at the scenario of the specification: with `s1` and then `s2` started, a query into
a buffer of 256 bytes leaves the payload `s1 s2`. -/
theorem C2_query_lists_active_sessions_witness :
    mldproc_query (run_calls (init_state []) calls_s1_s2) [] 256 = (0, "s1 s2".toList) := by
  have e : space_separated (active_names (run_trace (init_state []) calls_s1_s2)) =
      "s1 s2".toList := by decide
  have h := (C2_query_lists_active_sessions calls_s1_s2 [] AUTOCONF_PATH [] [] 256
    (by rw [show (⟨[], [], AUTOCONF_PATH, [], []⟩ : State) = init_state [] from rfl, e]; decide)).1
  rw [show (⟨[], [], AUTOCONF_PATH, [], []⟩ : State) = init_state [] from rfl, e] at h
  exact h

/-! ### The literal request forms -/

theorem takeWhile_not_delim (name : CStr) (h : ∀ c ∈ name, isDelim c = false) :
    name.takeWhile (fun c => !isDelim c) = name := by
  rw [List.takeWhile_eq_self_iff]
  intro c hc; simp [h c hc]

theorem dropWhile_not_delim (name : CStr) (h : ∀ c ∈ name, isDelim c = false) :
    name.dropWhile (fun c => !isDelim c) = [] := by
  rw [List.dropWhile_eq_nil_iff]
  intro c hc; simp [h c hc]

theorem strtok_r_token (name : CStr) (hne : name ≠ []) (h : ∀ c ∈ name, isDelim c = false) :
    strtok_r name = some (name, []) := by
  obtain ⟨c, cs, rfl⟩ := List.exists_cons_of_ne_nil hne
  have hc : isDelim c = false := h c (by simp)
  have hd : (c :: cs).dropWhile isDelim = c :: cs := by simp [List.dropWhile, hc]
  unfold strtok_r
  simp only [hd]
  rw [takeWhile_not_delim _ h, dropWhile_not_delim _ h]
  simp

theorem strstr_at_after_token (name needle rest : CStr)
    (h : ∀ c ∈ name, isDelim c = false) (hn : needle.head? = some ' ') :
    strstr_at (name ++ (needle ++ rest)) needle = some (name, needle ++ rest) := by
  induction name with
  | nil =>
    cases needle with
    | nil => simp at hn
    | cons d ds => simp [strstr_at]
  | cons c cs ih =>
    have hc : isDelim c = false := h c (by simp)
    have hne : c ≠ ' ' := by
      intro e; subst e; simp [isDelim] at hc
    cases needle with
    | nil => simp at hn
    | cons d ds =>
      simp only [List.head?_cons, Option.some.injEq] at hn
      subst hn
      have := ih (fun x hx => h x (by simp [hx]))
      simp only [List.cons_append, strstr_at, List.isPrefixOf, beq_iff_eq] at this ⊢
      simp [Ne.symm hne, this]

theorem strstr_at_token_none (name needle : CStr)
    (h : ∀ c ∈ name, isDelim c = false) (hn : needle.head? = some ' ') :
    strstr_at name needle = none := by
  induction name with
  | nil =>
    cases needle with
    | nil => simp at hn
    | cons d ds => simp [strstr_at]
  | cons c cs ih =>
    have hc : isDelim c = false := h c (by simp)
    have hne : c ≠ ' ' := by
      intro e; subst e; simp [isDelim] at hc
    cases needle with
    | nil => simp at hn
    | cons d ds =>
      simp only [List.head?_cons, Option.some.injEq] at hn
      subst hn
      have := ih (fun x hx => h x (by simp [hx]))
      simp only [strstr_at, List.isPrefixOf, beq_iff_eq] at this ⊢
      simp [Ne.symm hne, this]

theorem mld_not_prefix (name rest : CStr) (h : ∀ c ∈ name, isDelim c = false)
    (hm : name ≠ "mld".toList) :
    List.isPrefixOf "mld ".toList (name ++ (" mld ".toList ++ rest)) = false := by
  have e1 : "mld ".toList = ['m', 'l', 'd', ' '] := rfl
  have e2 : " mld ".toList = [' ', 'm', 'l', 'd', ' '] := rfl
  have e3 : "mld".toList = ['m', 'l', 'd'] := rfl
  rw [e1, e2]
  rw [e3] at hm
  match name, h, hm with
  | [], _, _ => simp [List.isPrefixOf]
  | [a], _, _ => simp [List.isPrefixOf]
  | [a, b], _, _ => simp [List.isPrefixOf]
  | [a, b, c], _, hm =>
    simp only [List.cons_append, List.nil_append, List.isPrefixOf, Bool.and_true,
      Bool.and_eq_false_imp, beq_iff_eq]
    intro ha hb
    subst ha; subst hb
    simp
    intro hc; subst hc; exact hm rfl
  | a :: b :: c :: d :: more, h, _ =>
    have hd : isDelim d = false := h d (by simp)
    have : d ≠ ' ' := by intro e; subst e; simp [isDelim] at hd
    simp [List.isPrefixOf, Ne.symm this]

theorem strstr_at_skip (c : Char) (cs needle : CStr)
    (h : needle.isPrefixOf (c :: cs) = false) :
    strstr_at (c :: cs) needle =
      match strstr_at cs needle with
      | some (pre, post) => some (c :: pre, post)
      | none => none := by
  simp [strstr_at, h]

theorem cut_mld_cmd_start_form (name rest : CStr) (h : ∀ c ∈ name, isDelim c = false)
    (hm : name ≠ "mld".toList) :
    cut_mld_cmd ("TRACE -s ".toList ++ (name ++ (" mld ".toList ++ rest))) =
      ("TRACE -s ".toList ++ name, some ("mld ".toList ++ rest)) := by
  have eT : "TRACE -s ".toList = ['T', 'R', 'A', 'C', 'E', ' ', '-', 's', ' '] := rfl
  have hp : List.isPrefixOf MLD_TOOL (' ' :: (name ++ (" mld ".toList ++ rest))) = false := by
    have := mld_not_prefix name rest h hm
    have e1 : "mld ".toList = ['m', 'l', 'd', ' '] := rfl
    rw [e1] at this
    have e2 : MLD_TOOL = [' ', 'm', 'l', 'd', ' '] := rfl
    rw [e2]
    simpa [List.isPrefixOf] using this
  have hs := strstr_at_after_token name " mld ".toList rest h rfl
  unfold cut_mld_cmd
  rw [eT]
  simp only [List.cons_append, List.nil_append]
  rw [strstr_at_skip _ _ _ (by rfl), strstr_at_skip _ _ _ (by rfl),
    strstr_at_skip _ _ _ (by rfl), strstr_at_skip _ _ _ (by rfl),
    strstr_at_skip _ _ _ (by rfl), strstr_at_skip _ _ _ (by rfl),
    strstr_at_skip _ _ _ (by rfl), strstr_at_skip _ _ _ (by rfl),
    strstr_at_skip _ _ _ hp]
  have e3 : MLD_TOOL = " mld ".toList := rfl
  rw [e3, hs]
  rfl

theorem strtok_r_word (c : Char) (w tail : CStr) (hc : isDelim c = false)
    (hw : ∀ x ∈ w, isDelim x = false) :
    strtok_r (c :: (w ++ ' ' :: tail)) = some (c :: w, tail) := by
  have hd : (c :: (w ++ ' ' :: tail)).dropWhile isDelim = c :: (w ++ ' ' :: tail) := by
    simp [List.dropWhile, hc]
  have hsp : isDelim ' ' = true := rfl
  have ht : (c :: (w ++ ' ' :: tail)).takeWhile (fun x => !isDelim x) = c :: w := by
    rw [← List.cons_append, List.takeWhile_append_of_pos]
    · simp [List.takeWhile, hsp]
    · intro x hx
      rcases List.mem_cons.mp hx with rfl | hx
      · simp [hc]
      · simp [hw x hx]
  have hr : (c :: (w ++ ' ' :: tail)).dropWhile (fun x => !isDelim x) = ' ' :: tail := by
    rw [← List.cons_append, List.dropWhile_append_of_pos]
    · simp [List.dropWhile, hsp]
    · intro x hx
      rcases List.mem_cons.mp hx with rfl | hx
      · simp [hc]
      · simp [hw x hx]
  unfold strtok_r
  simp only [hd, ht, hr]
  simp

theorem split_cmd_line_option_form (o : Char) (name : CStr) (hne : name ≠ [])
    (h : ∀ c ∈ name, isDelim c = false) (ho : isDelim o = false) :
    split_cmd_line ('T' :: 'R' :: 'A' :: 'C' :: 'E' :: ' ' :: '-' :: o :: ' ' :: name)
        MAX_ARGC =
      some ["TRACE".toList, ['-', o], name] := by
  have h1 := strtok_r_word 'T' ['R', 'A', 'C', 'E'] ('-' :: o :: ' ' :: name) rfl (by decide)
  have h2 := strtok_r_word '-' [o] name rfl (by simpa using ho)
  have h3 := strtok_r_token name hne h
  have h4 : strtok_r [] = none := rfl
  simp only [List.cons_append, List.nil_append] at h1 h2
  unfold split_cmd_line
  rw [if_neg (by decide), h1]
  show some (_ :: split_loop (62 + 1) _) = _
  simp only [split_loop, h2, h3, h4]
  rfl

theorem parse_option_s (name : CStr) :
    parse_option ["TRACE".toList, ['-', 's'], name] =
      (⟨tracecmd.TRACECMD_START, some name, none⟩, 0) := by
  rfl

theorem parse_option_k (name : CStr) :
    parse_option ["TRACE".toList, ['-', 'k'], name] =
      (⟨tracecmd.TRACECMD_STOP, none, some name⟩, 0) := by
  rfl

/-- Every line `TRACE -s <name> mld <rest>`, with `<name>` a non-empty word without space
and tab other than `mld`, is a start request for `<name>` with the forwarding command line
`mld <rest>`. -/
theorem start_request_of_form (name rest : CStr) (hne : name ≠ [])
    (h : ∀ c ∈ name, isDelim c = false) (hm : name ≠ "mld".toList) :
    start_request ("TRACE -s ".toList ++ (name ++ (" mld ".toList ++ rest))) name
      ("mld ".toList ++ rest) := by
  have eT : "TRACE -s ".toList = ['T', 'R', 'A', 'C', 'E', ' ', '-', 's', ' '] := rfl
  have hcut := cut_mld_cmd_start_form name rest h hm
  have hd : ("TRACE -s ".toList ++ (name ++ (" mld ".toList ++ rest))).dropWhile isspace =
      "TRACE -s ".toList ++ (name ++ (" mld ".toList ++ rest)) := by
    rw [eT]; rfl
  unfold start_request is_start_request option_data
  rw [hd, hcut]
  refine ⟨by rw [eT]; rfl, ?_, rfl, ?_⟩
  · rw [eT]
    simp only [List.cons_append, List.nil_append, strstr]
    rw [strstr_at_skip _ _ _ (by rfl), strstr_at_skip _ _ _ (by rfl),
      strstr_at_skip _ _ _ (by rfl), strstr_at_skip _ _ _ (by rfl),
      strstr_at_skip _ _ _ (by rfl)]
    rfl
  · simp only []
    rw [eT]
    simp only [List.cons_append, List.nil_append]
    rw [split_cmd_line_option_form 's' name hne h rfl]
    simp only [parse_option_s]

/-- Every line `TRACE -k <name>`, with `<name>` a non-empty word without space and tab, is
a stop request for `<name>`. -/
theorem stop_request_of_form (name : CStr) (hne : name ≠ [])
    (h : ∀ c ∈ name, isDelim c = false) :
    is_stop_request ("TRACE -k ".toList ++ name) name := by
  have eT : "TRACE -k ".toList = ['T', 'R', 'A', 'C', 'E', ' ', '-', 'k', ' '] := rfl
  have hd : ("TRACE -k ".toList ++ name).dropWhile isspace = "TRACE -k ".toList ++ name := by
    rw [eT]; rfl
  have hnone : strstr_at name MLD_TOOL = none := strstr_at_token_none name MLD_TOOL h rfl
  have hp : List.isPrefixOf MLD_TOOL (' ' :: name) = false := by
    have e2 : MLD_TOOL = [' ', 'm', 'l', 'd', ' '] := rfl
    rw [e2]
    match name, h with
    | [], _ => rfl
    | [a], _ => simp [List.isPrefixOf]
    | [a, b], _ => simp [List.isPrefixOf]
    | [a, b, c], _ => simp [List.isPrefixOf]
    | a :: b :: c :: d :: more, h =>
      have hd : isDelim d = false := h d (by simp)
      have : d ≠ ' ' := by intro e; subst e; simp [isDelim] at hd
      simp [List.isPrefixOf, Ne.symm this]
  have hcut : cut_mld_cmd ("TRACE -k ".toList ++ name) = ("TRACE -k ".toList ++ name, none) := by
    unfold cut_mld_cmd
    rw [eT]
    simp only [List.cons_append, List.nil_append]
    rw [strstr_at_skip _ _ _ (by rfl), strstr_at_skip _ _ _ (by rfl),
      strstr_at_skip _ _ _ (by rfl), strstr_at_skip _ _ _ (by rfl),
      strstr_at_skip _ _ _ (by rfl), strstr_at_skip _ _ _ (by rfl),
      strstr_at_skip _ _ _ (by rfl), strstr_at_skip _ _ _ (by rfl),
      strstr_at_skip _ _ _ hp, hnone]
  unfold is_stop_request option_data
  rw [hd, hcut]
  simp only []
  rw [eT]
  simp only [List.cons_append, List.nil_append]
  rw [split_cmd_line_option_form 'k' name hne h rfl]
  simp only [parse_option_k]

/-! ### Start and stop through the dispatcher -/

theorem mldproc_start_active (env : Env) (st : State) (n : CStr) (cmd : Option CStr)
    (h : n ∈ st.sessions.map session.name) :
    mldproc_start env st (some n) cmd = (-1, st) := by
  have ha : session_active n st.sessions = true := by
    unfold session_active
    cases hg : get_session n st.sessions with
    | none => exact absurd h (get_session_eq_none.mp hg)
    | some s => rfl
  cases cmd with
  | none => simp [mldproc_start]
  | some c => simp [mldproc_start, ha]

theorem send_response_ko (resp : CStr) (size : Nat) :
    send_response none (-1) resp size = (0, RES_KO) := by
  simp [send_response, send_buf]

theorem tracecmd_exec_option_data (env : Env) (st : State) (cmd resp : CStr) (len : Nat)
    (t : traceopt) (h : option_data cmd = some t) :
    tracecmd_exec env st cmd resp len = (-1, resp, st) ∨
    tracecmd_exec env st cmd resp len =
      (match t.cmd with
       | tracecmd.TRACECMD_START =>
         match (cut_mld_cmd cmd).2 with
         | some m => ((mldproc_start env st t.startopt (some m)).1, resp,
                      (mldproc_start env st t.startopt (some m)).2)
         | none => (-1, resp, st)
       | tracecmd.TRACECMD_STOP =>
         ((mldproc_stop env st t.stopopt).1, resp, (mldproc_stop env st t.stopopt).2)
       | tracecmd.TRACECMD_QUERY =>
         ((mldproc_query st resp len).1, (mldproc_query st resp len).2, st)
       | tracecmd.TRACECMD_CONFPATH => (0, st.confpath.take len, st)
       | tracecmd.TRACECMD_NONE => (0, resp, st)) := by
  unfold option_data at h
  unfold tracecmd_exec
  by_cases h1 : (strstr cmd OPTION_MARK).isNone = true
  · left; simp [h1]
  by_cases h2 : env.strdup_ok = false
  · left; simp [h2]
  cases hs : split_cmd_line (cut_mld_cmd cmd).1 MAX_ARGC with
  | none => simp [hs] at h
  | some argv =>
    simp only [hs, Option.some.injEq] at h
    simp only [h1, h2, hs, if_false, Bool.false_eq_true]
    subst h
    -- the return code left by the option parser is 0 unless no command was recognised
    have hrc : (parse_option argv).2 = 0 ∨
        ((parse_option argv).2 = -1 ∧ (parse_option argv).1.cmd = tracecmd.TRACECMD_NONE) := by
      unfold parse_option
      split
      · left; rfl
      · right; exact ⟨rfl, rfl⟩
      · split_ifs <;> first | (left; rfl) | (right; exact ⟨rfl, rfl⟩)
    rcases hrc with hrc | ⟨hrc, hnone⟩
    · right
      cases hc : (parse_option argv).1.cmd <;> simp [hrc]
    · left
      simp [hnone, hrc]

theorem dispatch_command_cases (env : Env) (st : State) (cmd resp : CStr) (len : Nat) :
    dispatch_command env st cmd resp len = (-1, resp, st) ∨
    dispatch_command env st cmd resp len =
      tracecmd_exec env st (cmd.dropWhile isspace) resp len := by
  unfold dispatch_command
  simp only []
  split_ifs <;> simp

theorem client_line_ko (env : Env) (st : State) (command : CStr)
    (hs : env.send_budget = none)
    (h : dispatch_command env st command [] CMD_LINE_LENGTH = (-1, [], st)) :
    client_line env st command = (-1, [], 0, RES_KO, st) := by
  simp [client_line, h, hs, send_response_ko]

theorem dispatch_start_active (env : Env) (st : State) (line n : CStr)
    (hn : n ∈ st.sessions.map session.name) (hreq : is_start_request line n) :
    dispatch_command env st line [] CMD_LINE_LENGTH = (-1, [], st) := by
  rcases dispatch_command_cases env st line [] CMD_LINE_LENGTH with h | h
  · exact h
  · rw [h]
    rcases tracecmd_exec_option_data env st _ [] CMD_LINE_LENGTH _ hreq with h2 | h2
    · exact h2
    · rw [h2]
      simp only [mldproc_start_active env st n _ hn]
      cases (cut_mld_cmd (List.dropWhile isspace line)).2 <;> rfl

/-- C3: when the registry already holds a session named `n`, `mldproc_start` for `n` returns
-1 and leaves the whole state as it was (same sessions in the same order, no directory
created, no process created), whatever the forwarding command line; and a line that the
option parser reads as a start request for `n`, in particular `TRACE -s <n> mld <rest>` for
a word `n` other than `mld`, is answered `KO` with the state unchanged. -/
theorem C3_start_existing_name_fails (env : Env) (st : State) (n : CStr)
    (cmd : Option CStr) (hn : n ∈ st.sessions.map session.name) :
    mldproc_start env st (some n) cmd = (-1, st) ∧
      (∀ line : CStr, env.send_budget = none → is_start_request line n →
        client_line env st line = (-1, [], 0, RES_KO, st)) ∧
      (∀ rest : CStr, env.send_budget = none → n ≠ [] → (∀ c ∈ n, isDelim c = false) →
        n ≠ "mld".toList →
        client_line env st ("TRACE -s ".toList ++ (n ++ (" mld ".toList ++ rest))) =
          (-1, [], 0, RES_KO, st)) :=
  ⟨mldproc_start_active env st n cmd hn,
   fun line hs hreq => client_line_ko env st line hs (dispatch_start_active env st line n hn hreq),
   fun rest hs hne hd hm => client_line_ko env st _ hs
     (dispatch_start_active env st _ n hn (start_request_of_form n rest hne hd hm).2.2.2)⟩

/-- C3 at the scenario of the specification: after `TRACE -s s1 /tmp/logs -e 4096 mld -x`
has started `s1`, the same line sent again is answered `KO` and nothing changes. -/
theorem C3_start_existing_name_fails_witness :
    "s1".toList ∈ state_s1.sessions.map session.name ∧
      mldproc_start (env_ok 101) state_s1 (some "s1".toList) (some "mld -x".toList) =
        (-1, state_s1) ∧
      client_line (env_ok 101) state_s1 line_start_s1 = (-1, [], 0, RES_KO, state_s1) :=
  have h := C3_start_existing_name_fails (env_ok 101) state_s1 "s1".toList
    (some "mld -x".toList) (by decide)
  ⟨by decide, h.1, h.2.1 line_start_s1 rfl (by decide)⟩

theorem mldproc_stop_unknown (env : Env) (st : State) (n : CStr)
    (hn : n ∉ st.sessions.map session.name) :
    mldproc_stop env st (some n) = (-1, st) := by
  simp [mldproc_stop, get_session_eq_none.mpr hn]

theorem dispatch_stop_unknown (env : Env) (st : State) (line n : CStr)
    (hn : n ∉ st.sessions.map session.name) (hreq : is_stop_request line n) :
    dispatch_command env st line [] CMD_LINE_LENGTH = (-1, [], st) := by
  rcases dispatch_command_cases env st line [] CMD_LINE_LENGTH with h | h
  · exact h
  · rw [h]
    rcases tracecmd_exec_option_data env st _ [] CMD_LINE_LENGTH _ hreq with h2 | h2
    · exact h2
    · rw [h2]
      simp only [mldproc_stop_unknown env st n hn]

/-- C4: when no session of the registry is named `n`, `mldproc_stop` for `n` returns -1 and
leaves the whole state as it was (same registry, no signal sent); and a line that the
option parser reads as a stop request for `n`, in particular `TRACE -k <n>` for a word
`n`, is answered `KO` with the state unchanged. -/
theorem C4_stop_unknown_name_fails (env : Env) (st : State) (n : CStr)
    (hn : n ∉ st.sessions.map session.name) :
    mldproc_stop env st (some n) = (-1, st) ∧
      (∀ line : CStr, env.send_budget = none → is_stop_request line n →
        client_line env st line = (-1, [], 0, RES_KO, st)) ∧
      (env.send_budget = none → n ≠ [] → (∀ c ∈ n, isDelim c = false) →
        client_line env st ("TRACE -k ".toList ++ n) = (-1, [], 0, RES_KO, st)) :=
  ⟨mldproc_stop_unknown env st n hn,
   fun line hs hreq => client_line_ko env st line hs (dispatch_stop_unknown env st line n hn hreq),
   fun hs hne hd => client_line_ko env st _ hs
     (dispatch_stop_unknown env st _ n hn (stop_request_of_form n hne hd))⟩

/-- C4 at the scenario of the specification: with only `s1` registered, `TRACE -k missing`
is answered `KO` and nothing changes. -/
theorem C4_stop_unknown_name_fails_witness :
    "missing".toList ∉ state_s1.sessions.map session.name ∧
      mldproc_stop (env_ok 101) state_s1 (some "missing".toList) = (-1, state_s1) ∧
      client_line (env_ok 101) state_s1 "TRACE -k missing".toList =
        (-1, [], 0, RES_KO, state_s1) :=
  have h := C4_stop_unknown_name_fails (env_ok 101) state_s1 "missing".toList (by decide)
  ⟨by decide, h.1, h.2.2 rfl (by decide) (by decide)⟩

theorem get_session_split (n : CStr) (l : List session) (s : session)
    (h : get_session n l = some s) :
    ∃ pre post, l = pre ++ s :: post ∧ s.name = n ∧ n ∉ pre.map session.name ∧
      unlink_session n l = pre ++ post := by
  induction l with
  | nil => simp [get_session] at h
  | cons a rest ih =>
    by_cases ha : a.name = n
    · simp only [get_session, ha, if_true, Option.some.injEq] at h
      subst h
      exact ⟨[], rest, rfl, ha, by simp, by simp [unlink_session, ha]⟩
    · simp only [get_session, ha, if_false] at h
      obtain ⟨pre, post, h1, h2, h3, h4⟩ := ih h
      refine ⟨a :: pre, post, by simp [h1], h2, ?_, by simp [unlink_session, ha, h4]⟩
      simp only [List.map_cons, List.mem_cons, not_or]
      exact ⟨fun e => ha e.symm, h3⟩

/-- C5: when the registry holds a session named `n`, `mldproc_stop` for `n` returns 0
whatever `kill` answers; the signal goes to the process identifier recorded in the first
(and, names being unique, only) entry named `n`; and the new registry is the old one
without that entry, the other entries keeping their order. -/
theorem C5_stop_removes_entry (env : Env) (st : State) (n : CStr)
    (hn : n ∈ st.sessions.map session.name) :
    ∃ pre s post, st.sessions = pre ++ s :: post ∧ s.name = n ∧
      n ∉ pre.map session.name ∧
      mldproc_stop env st (some n) =
        (0, { st with sessions := pre ++ post, killed := st.killed ++ [s.pid] }) := by
  rcases mldproc_stop_cases env st (some n) with ⟨_, h2⟩ | ⟨m, s, hm, hg, h2⟩
  · exact absurd hn (get_session_eq_none.mp (h2 n rfl))
  · cases hm
    obtain ⟨pre, post, h3, h4, h5, h6⟩ := get_session_split n st.sessions s hg
    exact ⟨pre, s, post, h3, h4, h5, by rw [h2, h6]⟩

/-- C5 on the registry `s1 s2 s3` with a failing `kill`: stopping `s2` returns 0, signals
process 101 and leaves `s1 s3`. -/
theorem C5_stop_removes_entry_witness :
    "s2".toList ∈ state_s1_s2_s3.sessions.map session.name ∧
      (∃ pre s post, state_s1_s2_s3.sessions = pre ++ s :: post ∧ s.name = "s2".toList ∧
        "s2".toList ∉ pre.map session.name ∧
        mldproc_stop env_kill_fails state_s1_s2_s3 (some "s2".toList) =
          (0, { state_s1_s2_s3 with
                  sessions := pre ++ post, killed := state_s1_s2_s3.killed ++ [s.pid] })) ∧
      mldproc_stop env_kill_fails state_s1_s2_s3 (some "s2".toList) =
        (0, { state_s1_s2_s3 with
                sessions := [⟨100, "s1".toList⟩, ⟨102, "s3".toList⟩], killed := [101] }) :=
  ⟨by decide,
   C5_stop_removes_entry env_kill_fails state_s1_s2_s3 "s2".toList (by decide),
   by decide⟩

theorem names_need_eq (l : List session) (h : l ≠ []) :
    names_need l = (space_separated (l.map session.name)).length + 1 := by
  rw [space_separated_eq]
  have hlen : ∀ l : List session, names_need l =
      (((l.map session.name).map (fun x => " ".toList ++ x)).flatten).length := by
    intro l
    induction l with
    | nil => rfl
    | cons p rest ih =>
      simp only [names_need, List.map_cons, List.sum_cons, List.flatten_cons,
        List.length_append] at *
      rw [ih]; simp; omega
  cases l with
  | nil => exact absurd rfl h
  | cons p rest =>
    rw [hlen, List.length_drop]
    simp only [List.map_cons, List.flatten_cons, List.length_append]
    simp
    omega

/-- C6, the claim as stated fails: with `s1` and `s2` registered and a buffer length of 4
the list `s1 s2` does not fit, `mldproc_query` returns -1, and the buffer, empty before the
call, holds `s1`. -/
theorem C6_query_failure_counterexample :
    (space_separated (state_s1_s2.sessions.map session.name)).length + 1 > 4 ∧
      mldproc_query state_s1_s2 [] 4 = (-1, "s1".toList) ∧
      (mldproc_query state_s1_s2 [] 4).2 ≠ [] := by
  decide

theorem names_need_cons (p : session) (l : List session) :
    names_need (p :: l) = p.name.length + 1 + names_need l := by
  simp [names_need]

theorem query_loop_fail_at (len : Nat) (l : List session) (resp : CStr) (n : Nat)
    (hl : l ≠ []) (h : n + names_need l ≥ len) :
    ∃ k, k < l.length ∧
      (∀ j, j < k → n + names_need (l.take (j + 1)) < len) ∧
      len ≤ n + names_need (l.take (k + 1)) ∧
      query_loop len l resp n =
        (-1, resp ++ ((((l.take k).map session.name).map
          (fun x => " ".toList ++ x)).flatten).drop (if n = 0 then 1 else 0)) := by
  induction l generalizing resp n with
  | nil => exact absurd rfl hl
  | cons p rest ih =>
    by_cases h1 : p.name.length + 1 + n ≥ len
    · refine ⟨0, by simp, fun j hj => absurd hj (by omega), ?_, by simp [query_loop, h1]⟩
      rw [List.take_succ_cons, List.take_zero, names_need_cons]
      simp only [names_need, List.map_nil, List.sum_nil]
      omega
    · rw [names_need_cons] at h
      have hrest : rest ≠ [] := by
        intro e; subst e; simp [names_need] at h; omega
      have h2 : n + (p.name.length + 1) + names_need rest ≥ len := by omega
      have hstep : ∀ (r : CStr) (k : Nat), k < rest.length →
          (∀ j, j < k → n + (p.name.length + 1) + names_need (rest.take (j + 1)) < len) →
          len ≤ n + (p.name.length + 1) + names_need (rest.take (k + 1)) →
          k + 1 < (p :: rest).length ∧
          (∀ j, j < k + 1 → n + names_need ((p :: rest).take (j + 1)) < len) ∧
          len ≤ n + names_need ((p :: rest).take (k + 1 + 1)) := by
        intro r k hk hall hge
        refine ⟨by simpa using hk, ?_, ?_⟩
        · intro j hj
          cases j with
          | zero =>
            rw [List.take_succ_cons, List.take_zero, names_need_cons]
            simp only [names_need, List.map_nil, List.sum_nil]
            omega
          | succ j =>
            rw [List.take_succ_cons, names_need_cons]
            have := hall j (by omega)
            omega
        · rw [List.take_succ_cons, names_need_cons]
          omega
      simp only [query_loop, h1, if_false]
      by_cases hn : n = 0
      · subst hn
        obtain ⟨k, hk, hall, hge, hq⟩ :=
          ih (resp ++ p.name) (0 + (p.name.length + 1)) hrest h2
        obtain ⟨g1, g2, g3⟩ := hstep resp k hk hall hge
        refine ⟨k + 1, g1, g2, g3, ?_⟩
        simp only [Nat.lt_irrefl, if_false, gt_iff_lt]
        rw [hq]
        simp
      · have hpos : n > 0 := Nat.pos_of_ne_zero hn
        obtain ⟨k, hk, hall, hge, hq⟩ :=
          ih (resp ++ " ".toList ++ p.name) (n + (p.name.length + 1)) hrest h2
        obtain ⟨g1, g2, g3⟩ := hstep resp k hk hall hge
        refine ⟨k + 1, g1, g2, g3, ?_⟩
        simp only [hpos, if_true, hn, if_false]
        rw [hq]
        simp [hn]

/-- C6 as amended: for a registry with at least one session and a buffer length that the
space-separated list of all names with its terminator exceeds, `mldproc_query` on an empty
buffer returns -1, and the buffer then holds the space-separated names of exactly the
first `k` sessions, where `k` is fixed by the length check: for each of the first `k`
sessions the names up to and including it, each with its separator or terminator, take
fewer than `len` bytes (`names_need`), and with the next session they take `len` bytes or
more. In particular the buffer is still empty when already the first name does not pass
the check. `send_response` writes only `KO` for this result, nothing of the buffer. -/
theorem C6_query_failure (st : State) (len : Nat) (hne : st.sessions ≠ [])
    (hfit : (space_separated (st.sessions.map session.name)).length + 1 > len) :
    (∃ k, k < st.sessions.length ∧
        (∀ j, j < k → names_need (st.sessions.take (j + 1)) < len) ∧
        len ≤ names_need (st.sessions.take (k + 1)) ∧
        mldproc_query st [] len =
          (-1, space_separated ((st.sessions.take k).map session.name))) ∧
      (len ≤ names_need (st.sessions.take 1) → mldproc_query st [] len = (-1, [])) ∧
      ∀ size, send_response none (mldproc_query st [] len).1 (mldproc_query st [] len).2 size =
        (0, RES_KO) := by
  have hn := names_need_eq st.sessions hne
  obtain ⟨k, hk, hall, hge, hq⟩ := query_loop_fail_at len st.sessions [] 0 hne (by omega)
  simp only [Nat.zero_add] at hall hge
  have hres : mldproc_query st [] len =
      (-1, space_separated ((st.sessions.take k).map session.name)) := by
    unfold mldproc_query
    rw [hq, space_separated_eq]
    simp
  refine ⟨⟨k, hk, hall, hge, hres⟩, ?_, ?_⟩
  · intro hfirst
    have hk0 : k = 0 := by
      by_contra hk0
      have h0 := hall 0 (by omega)
      rw [Nat.zero_add] at h0
      omega
    rw [hres, hk0]
    rfl
  · intro size
    rw [hres]
    exact send_response_ko _ size

/-- C6 as amended, on the registry `s1 s2` with a buffer length of 4: the check passes for
`s1` (3 bytes) and fails for `s2` (6 bytes), so `k = 1` and the buffer holds `s1`. -/
theorem C6_query_failure_witness :
    state_s1_s2.sessions ≠ [] ∧
      (space_separated (state_s1_s2.sessions.map session.name)).length + 1 > 4 ∧
      names_need (state_s1_s2.sessions.take 1) = 3 ∧
      names_need (state_s1_s2.sessions.take 2) = 6 ∧
      ((∃ k, k < state_s1_s2.sessions.length ∧
          (∀ j, j < k → names_need (state_s1_s2.sessions.take (j + 1)) < 4) ∧
          4 ≤ names_need (state_s1_s2.sessions.take (k + 1)) ∧
          mldproc_query state_s1_s2 [] 4 =
            (-1, space_separated ((state_s1_s2.sessions.take k).map session.name))) ∧
        (4 ≤ names_need (state_s1_s2.sessions.take 1) →
          mldproc_query state_s1_s2 [] 4 = (-1, [])) ∧
        ∀ size, send_response none (mldproc_query state_s1_s2 [] 4).1
          (mldproc_query state_s1_s2 [] 4).2 size = (0, RES_KO)) :=
  ⟨by decide, by decide, by decide, by decide,
   C6_query_failure state_s1_s2 4 (by decide) (by decide)⟩

/-- C7: when `mldproc_start` for a name that is not active fails for one of the resource
reasons (no argument after tokenization, directory creation fails, argument vector full,
`fork` fails, allocation of the session record fails), it returns -1 and the registry is
the one before the call. -/
theorem C7_start_failure_keeps_registry (env : Env) (st : State) (name cmd : CStr)
    (h : resource_failure env st name cmd) :
    (mldproc_start env st (some name) (some cmd)).1 = -1 ∧
      (mldproc_start env st (some name) (some cmd)).2.sessions = st.sessions := by
  rcases mldproc_start_cases env st (some name) (some cmd) with h1 | ⟨n, pid, _, _, hf, h0, _⟩
  · exact h1
  · exfalso
    obtain ⟨hact, hr⟩ := h
    have hne : (mldproc_start env st (some name) (some cmd)).1 = -1 := by
      rcases hr with hs | ⟨argv, hs, hr⟩
      · simp [mldproc_start, hact, hs]
      · by_cases hm : (mkpath env.stat_other env.mkdir_fails st.dirs (argv.getLast?.getD [])).1 = -1
        · simp [mldproc_start, hact, hs, hm]
        cases ho : add_mld_option MLD_OPT_DONT_DEMONIZE argv with
        | none => simp [mldproc_start, hact, hs, hm, ho]
        | some argv1 =>
          rcases hr with hr | hr | hr | hr | hr
          · exact absurd hr hm
          · simp [ho] at hr
          · simp [hf] at hr
          · simp [mldproc_start, hact, hs, hm, ho, hf, add_session, hr]
          · simp [mldproc_start, hact, hs, hm, ho, hf, add_session, hr]
    rw [h0] at hne
    exact absurd hne (by decide)

/-- C7 with a failing `fork`: the start of `s2` in the state holding `s1` returns -1; the
log directory has been created, the registry is unchanged. -/
theorem C7_start_failure_keeps_registry_witness :
    resource_failure env_fork_fails state_s1 "s2".toList "mld -x /tmp/logs".toList ∧
      (mldproc_start env_fork_fails state_s1 (some "s2".toList)
        (some "mld -x /tmp/logs".toList)).1 = -1 ∧
      (mldproc_start env_fork_fails state_s1 (some "s2".toList)
        (some "mld -x /tmp/logs".toList)).2.sessions = state_s1.sessions :=
  have hr : resource_failure env_fork_fails state_s1 "s2".toList "mld -x /tmp/logs".toList :=
    ⟨by decide, Or.inr ⟨["mld".toList, "-x".toList,
      "/tmp/logs/2026-11-01_12h00m00s_.log".toList], by decide,
      Or.inr (Or.inr (Or.inl rfl))⟩⟩
  ⟨hr, C7_start_failure_keeps_registry env_fork_fails state_s1 "s2".toList
    "mld -x /tmp/logs".toList hr⟩

theorem create_if_missing_mono (other fails : CStr → Bool) (dirs : List CStr) (p : CStr) :
    ∀ d ∈ dirs, d ∈ (create_if_missing other fails dirs p).2 := by
  intro d hd
  unfold create_if_missing mkdir
  split_ifs <;> simp [hd]

theorem create_if_missing_mem (other fails : CStr → Bool) (dirs : List CStr) (p : CStr)
    (h : (create_if_missing other fails dirs p).1 = 0) :
    p ∈ (create_if_missing other fails dirs p).2 ∨ other p = true := by
  unfold create_if_missing mkdir at h ⊢
  split_ifs at h ⊢ <;> simp_all

theorem mkpath_loop_cons (other fails : CStr → Bool) (path : CStr) (c : Char) (cs : CStr) (i : Nat)
    (dirs : List CStr) :
    mkpath_loop other fails path (c :: cs) i dirs =
      if c = PATH_DELIM then
        if i = 0 then mkpath_loop other fails path cs (i + 1) dirs
        else if i ≥ MAX_PATH_LEN then (-1, dirs)
        else if (create_if_missing other fails dirs (path.take i)).1 = 0 then
          mkpath_loop other fails path cs (i + 1) (create_if_missing other fails dirs (path.take i)).2
        else (-1, (create_if_missing other fails dirs (path.take i)).2)
      else mkpath_loop other fails path cs (i + 1) dirs := rfl

theorem mkpath_eq (other fails : CStr → Bool) (dirs : List CStr) (path : CStr) :
    mkpath other fails dirs path =
      if path = [PATH_DELIM] then (0, dirs)
      else if (mkpath_loop other fails path path 0 dirs).1 = 0 then
        if path.getLast? ≠ some PATH_DELIM then
          if (create_if_missing other fails (mkpath_loop other fails path path 0 dirs).2 path).1 = 0 then
            (0, (create_if_missing other fails (mkpath_loop other fails path path 0 dirs).2 path).2)
          else (-1, (create_if_missing other fails (mkpath_loop other fails path path 0 dirs).2 path).2)
        else (0, (mkpath_loop other fails path path 0 dirs).2)
      else (-1, (mkpath_loop other fails path path 0 dirs).2) := rfl

theorem mkpath_loop_mono (other fails : CStr → Bool) (path rest : CStr) (i : Nat)
    (dirs : List CStr) :
    ∀ d ∈ dirs, d ∈ (mkpath_loop other fails path rest i dirs).2 := by
  induction rest generalizing i dirs with
  | nil => intro d hd; simpa [mkpath_loop] using hd
  | cons c cs ih =>
    intro d hd
    rw [mkpath_loop_cons]
    split_ifs
    · exact ih _ _ d hd
    · exact hd
    · exact ih _ _ d (create_if_missing_mono other fails dirs _ d hd)
    · exact create_if_missing_mono other fails dirs _ d hd
    · exact ih _ _ d hd

theorem mkpath_loop_creates (other fails : CStr → Bool) (path rest : CStr) (i : Nat)
    (dirs : List CStr) (h : (mkpath_loop other fails path rest i dirs).1 = 0) :
    ∀ j, rest[j]? = some PATH_DELIM → 0 < i + j →
      path.take (i + j) ∈ (mkpath_loop other fails path rest i dirs).2 ∨
        other (path.take (i + j)) = true := by
  induction rest generalizing i dirs with
  | nil => intro j hj; simp at hj
  | cons c cs ih =>
    intro j hj hpos
    rw [mkpath_loop_cons] at h ⊢
    split_ifs at h ⊢ with hc hi hlen hr
    · cases j with
      | zero => omega
      | succ j =>
        have := ih (i + 1) dirs h j (by simpa using hj) (by omega)
        rwa [show i + (j + 1) = i + 1 + j by omega]
    · simp at h
    · cases j with
      | zero =>
        rcases create_if_missing_mem other fails dirs _ hr with hm | hm
        · exact Or.inl (mkpath_loop_mono other fails path cs (i + 1) _ _ hm)
        · exact Or.inr hm
      | succ j =>
        have := ih (i + 1) _ h j (by simpa using hj) (by omega)
        rwa [show i + (j + 1) = i + 1 + j by omega]
    · simp at h
    · cases j with
      | zero => simp at hj; exact absurd hj hc
      | succ j =>
        have := ih (i + 1) dirs h j (by simpa using hj) (by omega)
        rwa [show i + (j + 1) = i + 1 + j by omega]

theorem mkpath_creates (other fails : CStr → Bool) (dirs : List CStr) (path : CStr)
    (h : (mkpath other fails dirs path).1 = 0) :
    (∀ j, 0 < j → path[j]? = some PATH_DELIM →
        path.take j ∈ (mkpath other fails dirs path).2 ∨ other (path.take j) = true) ∧
      (path.getLast? ≠ some PATH_DELIM →
        path ∈ (mkpath other fails dirs path).2 ∨ other path = true) := by
  rw [mkpath_eq] at h ⊢
  split_ifs at h ⊢ with h0 h1 h2 h3
  · subst h0
    refine ⟨?_, fun hl => absurd rfl hl⟩
    intro j hj hd
    cases j with
    | zero => omega
    | succ j => simp at hd
  · refine ⟨?_, fun _ => create_if_missing_mem other fails _ _ h3⟩
    intro j hj hd
    have := mkpath_loop_creates other fails path path 0 dirs h1 j hd (by omega)
    rw [Nat.zero_add] at this
    exact this.imp (create_if_missing_mono other fails _ _ _) id
  · simp at h
  · refine ⟨?_, fun hl => absurd hl h2⟩
    intro j hj hd
    have := mkpath_loop_creates other fails path path 0 dirs h1 j hd (by omega)
    rwa [Nat.zero_add] at this
  · simp at h

theorem mkpath_rc (other fails : CStr → Bool) (dirs : List CStr) (path : CStr) :
    (mkpath other fails dirs path).1 = 0 ∨ (mkpath other fails dirs path).1 = -1 := by
  rw [mkpath_eq]
  split_ifs <;> simp

theorem dispatch_blank_line (env : Env) (st : State) (cmd resp : CStr) (len : Nat)
    (h : ∀ c ∈ cmd, isspace c = true) :
    dispatch_command env st cmd resp len = (-1, resp, st) := by
  have : cmd.dropWhile isspace = [] := by
    rw [List.dropWhile_eq_nil_iff]; exact h
  simp [dispatch_command, this]

theorem dispatch_without_trace_cmd (env : Env) (st : State) (cmd resp : CStr) (len : Nat)
    (h : (cmd.dropWhile isspace).take TRACE_CMD.length ≠ TRACE_CMD) :
    dispatch_command env st cmd resp len = (-1, resp, st) := by
  unfold dispatch_command
  simp only []
  split_ifs <;> rfl

/-- C9, the code at the failing input: the line `TRACE -` holds the option mark, the option
parser finds no option and returns -1 at once, `rc` is still 0 and no command was set, so
`dispatch_command` returns 0 and the response is `OK`, not `KO`. -/
theorem C9_trace_dash_answered_ok :
    dispatch_command (env_ok 100) state_s1 "TRACE -".toList [] CMD_LINE_LENGTH =
        (0, [], state_s1) ∧
      client_line (env_ok 100) state_s1 "TRACE -".toList = (0, [], 0, RES_OK, state_s1) := by
  decide

theorem query_loop_length (len : Nat) (l : List session) (resp : CStr) (n : Nat)
    (hinv : resp = [] ∨ (resp.length + 1 ≤ n ∧ n < len))
    (h : (query_loop len l resp n).1 = 0) :
    (query_loop len l resp n).2 = [] ∨ (query_loop len l resp n).2.length + 1 < len := by
  induction l generalizing resp n with
  | nil =>
    rcases hinv with hinv | hinv
    · left; simpa [query_loop] using hinv
    · right; simp only [query_loop]; omega
  | cons p rest ih =>
    by_cases h1 : p.name.length + 1 + n ≥ len
    · simp [query_loop, h1] at h
    · simp only [query_loop, h1, if_false] at h ⊢
      apply ih _ _ _ h
      right
      refine ⟨?_, by omega⟩
      by_cases hn : n > 0
      · simp only [hn, if_true, List.length_append]
        rcases hinv with hinv | hinv
        · subst hinv; simp; omega
        · simp; omega
      · simp only [hn, if_false, List.length_append]
        rcases hinv with hinv | hinv
        · subst hinv; simp
        · omega

theorem tracecmd_exec_no_data (env : Env) (st : State) (cmd resp : CStr) (len : Nat)
    (h : option_data cmd = none) :
    tracecmd_exec env st cmd resp len = (-1, resp, st) := by
  unfold option_data at h
  cases hs : split_cmd_line (cut_mld_cmd cmd).1 MAX_ARGC with
  | none =>
    unfold tracecmd_exec
    simp only [hs]
    split_ifs <;> rfl
  | some argv => simp [hs] at h

theorem query_loop_rc (len : Nat) (l : List session) (resp : CStr) (n : Nat) :
    (query_loop len l resp n).1 = 0 ∨ (query_loop len l resp n).1 = -1 := by
  induction l generalizing resp n with
  | nil => left; rfl
  | cons p rest ih =>
    simp only [query_loop]
    split_ifs
    · right; rfl
    · exact ih _ _
    · exact ih _ _

theorem tracecmd_exec_payload (env : Env) (st : State) (cmd : CStr)
    (hc : st.confpath.length < MAX_PATH_LEN)
    (h : (tracecmd_exec env st cmd [] CMD_LINE_LENGTH).1 ≠ -1) :
    (tracecmd_exec env st cmd [] CMD_LINE_LENGTH).2.1 = [] ∨
      (tracecmd_exec env st cmd [] CMD_LINE_LENGTH).2.1.length + 1 < CMD_LINE_LENGTH := by
  cases hd : option_data cmd with
  | none => left; rw [tracecmd_exec_no_data env st cmd [] _ hd]
  | some t =>
    rcases tracecmd_exec_option_data env st cmd [] CMD_LINE_LENGTH t hd with h1 | h1
    · left; rw [h1]
    · rw [h1] at h ⊢
      cases hcmd : t.cmd with
      | TRACECMD_NONE => left; rfl
      | TRACECMD_START =>
        left
        simp only []
        cases (cut_mld_cmd cmd).2 <;> rfl
      | TRACECMD_STOP => left; rfl
      | TRACECMD_QUERY =>
        simp only [hcmd] at h ⊢
        rcases query_loop_rc CMD_LINE_LENGTH st.sessions [] 0 with h0 | h0
        · exact query_loop_length CMD_LINE_LENGTH st.sessions [] 0 (Or.inl rfl) h0
        · exact absurd h0 h
      | TRACECMD_CONFPATH =>
        right
        simp only [List.length_take]
        unfold MAX_PATH_LEN at hc
        unfold CMD_LINE_LENGTH
        omega

theorem dispatch_command_payload (env : Env) (st : State) (cmd : CStr)
    (hc : st.confpath.length < MAX_PATH_LEN)
    (h : (dispatch_command env st cmd [] CMD_LINE_LENGTH).1 ≠ -1) :
    (dispatch_command env st cmd [] CMD_LINE_LENGTH).2.1 = [] ∨
      (dispatch_command env st cmd [] CMD_LINE_LENGTH).2.1.length + 1 < CMD_LINE_LENGTH := by
  rcases dispatch_command_cases env st cmd [] CMD_LINE_LENGTH with h1 | h1
  · left; rw [h1]
  · rw [h1] at h ⊢
    exact tracecmd_exec_payload env st _ hc h

/-- C10: for every command line handled by `client_thread` (response buffer cleared, length
256), when the socket accepts the bytes and `confpath` fits its buffer of `MAX_PATH_LEN`
bytes: the bytes written are exactly `KO\n` if `dispatch_command` returned -1, and
otherwise the payload left in the response buffer followed by a line feed and `OK\n` if
the payload is not empty, and exactly `OK\n` if it is empty. -/
theorem C10_response_framing (env : Env) (st : State) (command : CStr)
    (hc : st.confpath.length < MAX_PATH_LEN) (hsend : env.send_budget = none) :
    ((client_line env st command).1 = -1 →
        (client_line env st command).2.2.2.1 = "KO\n".toList) ∧
      ((client_line env st command).1 ≠ -1 →
        (client_line env st command).2.2.2.1 =
          if (client_line env st command).2.1 = [] then "OK\n".toList
          else (client_line env st command).2.1 ++ "\n".toList ++ "OK\n".toList) := by
  constructor
  · intro h
    simp only [client_line] at h ⊢
    simp [h, hsend, send_response, send_buf, RES_KO]
  · intro h
    simp only [client_line] at h ⊢
    rcases dispatch_command_payload env st command hc h with hp | hp
    · simp [h, hp, hsend, send_response, send_buf, RES_OK]
    · by_cases he : (dispatch_command env st command [] CMD_LINE_LENGTH).2.1 = []
      · simp [h, he, hsend, send_response, send_buf, RES_OK]
      · simp [h, he, hsend, send_response, send_buf, RES_OK, hp, LINE_END]

/-- C10 at the scenario of the specification: `TRACE -c` with the configured path
`/sdcard/mld.conf` is answered `/sdcard/mld.conf\nOK\n`. -/
theorem C10_response_framing_witness :
    (init_state []).confpath = "/sdcard/mld.conf".toList ∧
      (client_line (env_ok 100) (init_state []) "TRACE -c".toList).2.2.2.1 =
        "/sdcard/mld.conf\nOK\n".toList := by
  refine ⟨rfl, ?_⟩
  have h := (C10_response_framing (env_ok 100) (init_state []) "TRACE -c".toList
    (by decide) rfl).2 (by decide)
  rw [h]
  decide

/-- C14, the claim as stated fails: the three tokens `mld -d -d` already hold the flag, so
`add_mld_option` leaves them as they are and the finalized vector holds `-d` twice. -/
theorem C14_dont_daemonize_counterexample :
    1 ≤ ["mld".toList, "-d".toList, "-d".toList].length ∧
      ["mld".toList, "-d".toList, "-d".toList].length < 64 ∧
      final_argv ["mld".toList, "-d".toList, "-d".toList] =
        some [MLD_BIN, "-d".toList, "-d".toList] ∧
      (MLD_BIN :: ["-d".toList, "-d".toList]).count "-d".toList = 2 := by
  decide

theorem add_mld_option_present (argv : List CStr) (h : MLD_OPT_DONT_DEMONIZE ∈ argv) :
    add_mld_option MLD_OPT_DONT_DEMONIZE argv = some argv := by
  unfold add_mld_option
  rw [if_pos (List.any_eq_true.mpr ⟨_, h, by simp⟩)]

theorem add_mld_option_absent (argv : List CStr) (h : MLD_OPT_DONT_DEMONIZE ∉ argv)
    (hlen : argv.length < MAX_ARGC) :
    add_mld_option MLD_OPT_DONT_DEMONIZE argv =
      some (argv.take 1 ++ [MLD_OPT_DONT_DEMONIZE] ++ argv.drop 1) := by
  unfold add_mld_option
  have h1 : ¬ (argv.any (fun a => a == MLD_OPT_DONT_DEMONIZE) = true) := by
    intro hh
    obtain ⟨a, ha, he⟩ := List.any_eq_true.mp hh
    have : a = MLD_OPT_DONT_DEMONIZE := by simpa using he
    exact h (this ▸ ha)
  rw [if_neg h1, if_neg (by omega)]

/-- C14 as amended: for every vector of `n` tokens, `1 ≤ n < 64`, whose token 0 (the
program name, overwritten afterwards) is not `-d`, the finalized vector exists and holds
`-d` once if the tokens held it at most once and as often as the tokens held it
otherwise; when the tokens did not hold it, it is inserted right after the program name. -/
theorem C14_dont_daemonize (argv : List CStr) (h1 : 1 ≤ argv.length)
    (h2 : argv.length < MAX_ARGC) (h0 : argv.head? ≠ some MLD_OPT_DONT_DEMONIZE) :
    ∃ v, final_argv argv = some v ∧
      v.count MLD_OPT_DONT_DEMONIZE = max 1 (argv.count MLD_OPT_DONT_DEMONIZE) ∧
      (MLD_OPT_DONT_DEMONIZE ∉ argv →
        v = MLD_BIN :: MLD_OPT_DONT_DEMONIZE :: argv.drop 1) := by
  cases argv with
  | nil => simp at h1
  | cons a rest =>
    have ha : a ≠ MLD_OPT_DONT_DEMONIZE := by simpa using h0
    have hb : MLD_BIN ≠ MLD_OPT_DONT_DEMONIZE := by decide
    by_cases hm : MLD_OPT_DONT_DEMONIZE ∈ a :: rest
    · refine ⟨MLD_BIN :: rest, ?_, ?_, fun hn => absurd hm hn⟩
      · simp [final_argv, add_mld_option_present _ hm]
      · have hr : MLD_OPT_DONT_DEMONIZE ∈ rest := by
          rcases List.mem_cons.mp hm with e | e
          · exact absurd e.symm ha
          · exact e
        have hpos : 0 < rest.count MLD_OPT_DONT_DEMONIZE := List.count_pos_iff.mpr hr
        rw [List.count_cons_of_ne (Ne.symm hb), List.count_cons_of_ne (Ne.symm ha)]
        omega
    · refine ⟨MLD_BIN :: MLD_OPT_DONT_DEMONIZE :: rest, ?_, ?_, fun _ => by simp⟩
      · simp [final_argv, add_mld_option_absent _ hm h2]
      · have hz : (a :: rest).count MLD_OPT_DONT_DEMONIZE = 0 := List.count_eq_zero.mpr hm
        have hr : rest.count MLD_OPT_DONT_DEMONIZE = 0 := by
          rw [List.count_cons_of_ne (Ne.symm ha)] at hz; exact hz
        rw [hz, List.count_cons_of_ne (Ne.symm hb), List.count_cons_self, hr]
        rfl

/-- C14 as amended, on the tokens `mld -x /tmp/logs`: the flag is inserted after the
program name and occurs once. -/
theorem C14_dont_daemonize_witness :
    ∃ v, final_argv ["mld".toList, "-x".toList, "/tmp/logs".toList] = some v ∧
      v.count MLD_OPT_DONT_DEMONIZE =
        max 1 (["mld".toList, "-x".toList, "/tmp/logs".toList].count MLD_OPT_DONT_DEMONIZE) ∧
      (MLD_OPT_DONT_DEMONIZE ∉ ["mld".toList, "-x".toList, "/tmp/logs".toList] →
        v = MLD_BIN :: MLD_OPT_DONT_DEMONIZE ::
          ["mld".toList, "-x".toList, "/tmp/logs".toList].drop 1) :=
  C14_dont_daemonize ["mld".toList, "-x".toList, "/tmp/logs".toList] (by decide) (by decide)
    (by decide)

theorem mkpath_loop_long (other fails : CStr → Bool) (path rest : CStr) (i : Nat)
    (dirs : List CStr) (j : Nat) (hj : rest[j]? = some PATH_DELIM)
    (hlen : MAX_PATH_LEN ≤ i + j) :
    (mkpath_loop other fails path rest i dirs).1 = -1 := by
  induction rest generalizing i dirs j with
  | nil => simp at hj
  | cons c cs ih =>
    rw [mkpath_loop_cons]
    have hM : MAX_PATH_LEN = 128 := rfl
    split_ifs with hc hi hl hr
    · cases j with
      | zero => omega
      | succ j => exact ih (i + 1) dirs j (by simpa using hj) (by omega)
    · rfl
    · cases j with
      | zero => omega
      | succ j => exact ih (i + 1) _ j (by simpa using hj) (by omega)
    · rfl
    · cases j with
      | zero => simp at hj; exact absurd hj hc
      | succ j => exact ih (i + 1) dirs j (by simpa using hj) (by omega)

theorem create_if_missing_present (other fails : CStr → Bool) (dirs : List CStr) (p : CStr)
    (h : p ∈ dirs ∨ other p = true) : create_if_missing other fails dirs p = (0, dirs) := by
  unfold create_if_missing
  rcases h with h | h
  · rw [if_pos h]
  · split_ifs <;> rfl

theorem mkpath_loop_short (other fails : CStr → Bool) (path rest : CStr) (i : Nat)
    (dirs : List CStr) (h : (mkpath_loop other fails path rest i dirs).1 = 0) :
    ∀ j, rest[j]? = some PATH_DELIM → i + j < MAX_PATH_LEN := by
  intro j hj
  by_contra hlt
  have := mkpath_loop_long other fails path rest i dirs j hj (by omega)
  rw [h] at this
  exact absurd this (by decide)

theorem mkpath_loop_present (other fails : CStr → Bool) (path rest : CStr) (i : Nat)
    (dirs : List CStr)
    (h : ∀ j, rest[j]? = some PATH_DELIM → 0 < i + j →
      i + j < MAX_PATH_LEN ∧ (path.take (i + j) ∈ dirs ∨ other (path.take (i + j)) = true)) :
    mkpath_loop other fails path rest i dirs = (0, dirs) := by
  induction rest generalizing i with
  | nil => rfl
  | cons c cs ih =>
    have hrec : mkpath_loop other fails path cs (i + 1) dirs = (0, dirs) := by
      apply ih
      intro j hj hpos
      have := h (j + 1) (by simpa using hj) (by omega)
      rwa [show i + (j + 1) = i + 1 + j by omega] at this
    rw [mkpath_loop_cons]
    split_ifs with hc hi hl hr
    · exact hrec
    · have := (h 0 (by simp [hc]) (by omega)).1
      omega
    · have := (h 0 (by simp [hc]) (by omega)).2
      rw [Nat.add_zero] at this
      rw [create_if_missing_present other fails dirs _ this]
      exact hrec
    · have := (h 0 (by simp [hc]) (by omega)).2
      rw [Nat.add_zero] at this
      rw [create_if_missing_present other fails dirs _ this] at hr
      exact absurd rfl hr
    · exact hrec

/-- C16: when `mkpath` succeeds on a path, a second `mkpath` on the same path in the
resulting file system, whatever `mkdir` would answer then, succeeds too and leaves the set
of directories as it was after the first call. -/
theorem C16_mkpath_idempotent (other fails fails2 : CStr → Bool) (dirs : List CStr) (path : CStr)
    (h : (mkpath other fails dirs path).1 = 0) :
    mkpath other fails2 (mkpath other fails dirs path).2 path = (0, (mkpath other fails dirs path).2) := by
  by_cases h0 : path = [PATH_DELIM]
  · rw [mkpath_eq, if_pos h0]
  · have hc := mkpath_creates other fails dirs path h
    have hloop : (mkpath_loop other fails path path 0 dirs).1 = 0 := by
      rw [mkpath_eq, if_neg h0] at h
      by_contra hx
      rw [if_neg hx] at h
      simp at h
    have hshort := mkpath_loop_short other fails path path 0 dirs hloop
    have hl : mkpath_loop other fails2 path path 0 (mkpath other fails dirs path).2 =
        (0, (mkpath other fails dirs path).2) := by
      apply mkpath_loop_present
      intro j hj hpos
      rw [Nat.zero_add] at hpos ⊢
      exact ⟨by simpa using hshort j hj, hc.1 j hpos hj⟩
    rw [mkpath_eq other fails2, if_neg h0, hl]
    simp only [if_true]
    by_cases hlast : path.getLast? ≠ some PATH_DELIM
    · rw [if_pos hlast, create_if_missing_present other fails2 _ _ (hc.2 hlast)]
      rfl
    · rw [if_neg hlast]

/-- C16 on `/tmp/logs` in a file system without directories: the first call creates `/tmp`
and `/tmp/logs`, the second call, with a `mkdir` that would fail, changes nothing. -/
theorem C16_mkpath_idempotent_witness :
    mkpath (fun _ => false) (fun _ => false) [] "/tmp/logs".toList =
        (0, ["/tmp".toList, "/tmp/logs".toList]) ∧
      mkpath (fun _ => false) (fun _ => true) (mkpath (fun _ => false) (fun _ => false) [] "/tmp/logs".toList).2
          "/tmp/logs".toList =
        (0, (mkpath (fun _ => false) (fun _ => false) [] "/tmp/logs".toList).2) :=
  ⟨by decide,
   C16_mkpath_idempotent (fun _ => false) (fun _ => false) (fun _ => true) [] "/tmp/logs".toList (by decide)⟩

theorem token_runs_nil : token_runs [] = [] := by
  simp [token_runs]

theorem token_runs_delim (d : Char) (s : CStr) (hd : isDelim d = true) :
    token_runs (d :: s) = token_runs s := by
  simp [token_runs, List.splitOnP_cons, hd]

theorem token_runs_dropWhile (s : CStr) : token_runs (s.dropWhile isDelim) = token_runs s := by
  induction s with
  | nil => rfl
  | cons c cs ih =>
    by_cases hc : isDelim c = true
    · rw [List.dropWhile_cons_of_pos hc, ih, token_runs_delim c cs hc]
    · rw [List.dropWhile_cons_of_neg hc]

theorem token_runs_word (w tl : CStr) (hw : w ≠ []) (hnd : ∀ x ∈ w, isDelim x = false)
    (htl : ∀ d r, tl = d :: r → isDelim d = true) :
    token_runs (w ++ tl) = w :: token_runs (tl.drop 1) := by
  cases tl with
  | nil =>
    rw [List.append_nil, List.drop_nil, token_runs_nil]
    unfold token_runs
    rw [List.splitOnP_eq_single isDelim w (fun x hx => by simp [hnd x hx])]
    simp [hw]
  | cons d r =>
    have hd := htl d r rfl
    unfold token_runs
    rw [List.splitOnP_first isDelim w (fun x hx => by simp [hnd x hx]) d hd r]
    simp [hw]

theorem strtok_r_runs (s : CStr) :
    (strtok_r s = none ∧ token_runs s = []) ∨
    ∃ t s', strtok_r s = some (t, s') ∧ token_runs s = t :: token_runs s' ∧
      t ≠ [] ∧ (∀ x ∈ t, isDelim x = false) := by
  by_cases h1 : s.dropWhile isDelim = []
  · left
    refine ⟨by simp [strtok_r, h1], ?_⟩
    rw [← token_runs_dropWhile, h1, token_runs_nil]
  · right
    obtain ⟨c, cs, hcs⟩ := List.exists_cons_of_ne_nil h1
    have hc : isDelim c = false := by
      have := List.head_dropWhile_not isDelim s h1
      simpa [hcs] using this
    refine ⟨(s.dropWhile isDelim).takeWhile (fun c => !isDelim c),
      ((s.dropWhile isDelim).dropWhile (fun c => !isDelim c)).drop 1, ?_, ?_, ?_, ?_⟩
    · simp [strtok_r, h1]
    · rw [← token_runs_dropWhile s]
      conv_lhs => rw [← List.takeWhile_append_dropWhile (fun c => !isDelim c)
        (s.dropWhile isDelim)]
      apply token_runs_word
      · rw [hcs]; simp [List.takeWhile, hc]
      · intro x hx
        have := List.mem_takeWhile_imp hx
        simpa using this
      · intro d r hdr
        have hne : (s.dropWhile isDelim).dropWhile (fun c => !isDelim c) ≠ [] := by
          rw [hdr]; simp
        have := List.head_dropWhile_not (fun c => !isDelim c) (s.dropWhile isDelim) hne
        simpa [hdr] using this
    · rw [hcs]; simp [List.takeWhile, hc]
    · intro x hx
      have := List.mem_takeWhile_imp hx
      simpa using this

theorem split_loop_runs (k : Nat) (s : CStr) : split_loop k s = (token_runs s).take k := by
  induction k generalizing s with
  | zero => simp [split_loop]
  | succ k ih =>
    rcases strtok_r_runs s with ⟨h1, h2⟩ | ⟨t, s', h1, h2, _, _⟩
    · simp [split_loop, h1, h2]
    · simp [split_loop, h1, h2, ih]

theorem split_loop_tokens (k : Nat) (s : CStr) :
    ∀ t ∈ split_loop k s, t ≠ [] ∧ ∀ x ∈ t, isDelim x = false := by
  induction k generalizing s with
  | zero => simp [split_loop]
  | succ k ih =>
    rcases strtok_r_runs s with ⟨h1, _⟩ | ⟨t, s', h1, _, h3, h4⟩
    · simp [split_loop, h1]
    · intro u hu
      simp only [split_loop, h1, List.mem_cons] at hu
      rcases hu with rfl | hu
      · exact ⟨h3, h4⟩
      · exact ih s' u hu

theorem split_cmd_line_runs (s : CStr) (c : Nat) (hc : 1 ≤ c) :
    split_cmd_line s c =
      if token_runs s = [] then none else some ((token_runs s).take c) := by
  have h := split_loop_runs (c - 1 + 1) s
  unfold split_cmd_line
  rw [if_neg (by omega)]
  rcases strtok_r_runs s with ⟨h1, h2⟩ | ⟨t, s', h1, h2, _, _⟩
  · simp [h1, h2]
  · rw [h1, h2, if_neg (by simp)]
    simp only [split_loop_runs]
    obtain ⟨c', rfl⟩ : ∃ c', c = c' + 1 := ⟨c - 1, by omega⟩
    simp

theorem token_runs_eq_nil (s : CStr) : token_runs s = [] ↔ ∀ x ∈ s, isDelim x = true := by
  rw [← List.dropWhile_eq_nil_iff]
  rcases strtok_r_runs s with ⟨h1, h2⟩ | ⟨t, s', h1, h2, _, _⟩
  · simp only [h2, true_iff]
    by_contra hne
    simp [strtok_r, hne] at h1
  · simp only [h2]
    constructor
    · intro h; simp at h
    · intro h; simp [strtok_r, h] at h1

/-- C17: for every string `s` and capacity `c ≥ 1`, `split_cmd_line` fails exactly when `s`
holds nothing but spaces and tabs; otherwise it succeeds, and the vector it returns is the
first `c` maximal runs of characters other than space and tab of `s`, in order, so that
`argc = min(k, c)` for the number `k` of runs; every argument is non-empty and free of
delimiters. Runs beyond the capacity are dropped without error. -/
theorem C17_split_cmd_line (s : CStr) (c : Nat) (hc : 1 ≤ c) :
    (split_cmd_line s c = none ↔ ∀ x ∈ s, isDelim x = true) ∧
      ((∃ x ∈ s, isDelim x = false) →
        split_cmd_line s c = some ((token_runs s).take c)) ∧
      (∀ argv, split_cmd_line s c = some argv →
        argv = (token_runs s).take c ∧
        argv.length = min (token_runs s).length c ∧
        ∀ t ∈ argv, t ≠ [] ∧ ∀ x ∈ t, isDelim x = false) := by
  have hr := split_cmd_line_runs s c hc
  have he := token_runs_eq_nil s
  refine ⟨?_, ?_, ?_⟩
  · rw [hr, ← he]
    by_cases h : token_runs s = [] <;> simp [h]
  · rintro ⟨x, hx, hd⟩
    have h : token_runs s ≠ [] := by
      intro h
      have := he.mp h x hx
      rw [hd] at this
      exact absurd this (by decide)
    rw [hr, if_neg h]
  · intro argv ha
    have h : token_runs s ≠ [] := by
      intro h; rw [hr, if_pos h] at ha; exact absurd ha (by simp)
    rw [hr, if_neg h] at ha
    have hv : argv = (token_runs s).take c := by
      simpa using ha.symm
    refine ⟨hv, by rw [hv, List.length_take, Nat.min_comm], ?_⟩
    intro t ht
    have hall := split_loop_tokens c s
    rw [split_loop_runs] at hall
    rw [hv] at ht
    exact hall t ht

/-- C17 on a string with three runs and capacity 2: the third run is dropped. -/
theorem C17_split_cmd_line_witness :
    split_cmd_line "  a\tbb  c ".toList 2 = some ["a".toList, "bb".toList] ∧
      token_runs "  a\tbb  c ".toList = ["a".toList, "bb".toList, "c".toList] ∧
      ((split_cmd_line "  a\tbb  c ".toList 2 = none ↔
          ∀ x ∈ "  a\tbb  c ".toList, isDelim x = true) ∧
        ((∃ x ∈ "  a\tbb  c ".toList, isDelim x = false) →
          split_cmd_line "  a\tbb  c ".toList 2 =
            some ((token_runs "  a\tbb  c ".toList).take 2)) ∧
        (∀ argv, split_cmd_line "  a\tbb  c ".toList 2 = some argv →
          argv = (token_runs "  a\tbb  c ".toList).take 2 ∧
          argv.length = min (token_runs "  a\tbb  c ".toList).length 2 ∧
          ∀ t ∈ argv, t ≠ [] ∧ ∀ x ∈ t, isDelim x = false)) :=
  ⟨by decide, by decide, C17_split_cmd_line "  a\tbb  c ".toList 2 (by decide)⟩

theorem compose_cmd_eq (time : Option tm) (cmd mcpu : CStr) :
    compose_cmd time cmd mcpu =
      (cmd ++ (PATH_DELIM :: log_file_name time mcpu)).take (CMD_LINE_LENGTH - 1) := by
  cases time <;> simp [compose_cmd, log_file_name, PATH_DELIM]

theorem digitChar_not_delim (m : Nat) (h : m < 10) : isDelim (Nat.digitChar m) = false := by
  interval_cases m <;> decide

theorem toDigitsCore_not_delim (fuel n : Nat) (ds : List Char)
    (h : ∀ x ∈ ds, isDelim x = false) :
    ∀ x ∈ Nat.toDigitsCore 10 fuel n ds, isDelim x = false := by
  induction fuel generalizing n ds with
  | zero => simpa [Nat.toDigitsCore] using h
  | succ f ih =>
    have hd : ∀ x ∈ Nat.digitChar (n % 10) :: ds, isDelim x = false := by
      intro x hx
      rcases List.mem_cons.mp hx with rfl | hx
      · exact digitChar_not_delim _ (Nat.mod_lt _ (by decide))
      · exact h x hx
    simp only [Nat.toDigitsCore]
    split_ifs
    · exact hd
    · exact ih _ _ hd

theorem fmt_d_not_delim (w n : Nat) : ∀ x ∈ fmt_d w n, isDelim x = false := by
  intro x hx
  simp only [fmt_d, List.mem_append, List.mem_replicate] at hx
  rcases hx with ⟨_, rfl⟩ | hx
  · decide
  · exact toDigitsCore_not_delim _ _ [] (by simp) x hx

theorem mcpu_of_not_delim (cmd : CStr) : ∀ x ∈ mcpu_of cmd, isDelim x = false := by
  unfold mcpu_of
  split_ifs <;> decide

theorem log_file_name_not_delim (time : Option tm) (cmd : CStr) :
    ∀ x ∈ log_file_name time (mcpu_of cmd), isDelim x = false := by
  have hm := mcpu_of_not_delim cmd
  have hf := fmt_d_not_delim
  cases time with
  | none =>
    simp only [log_file_name, List.forall_mem_append]
    exact ⟨⟨by decide, hm⟩, by decide⟩
  | some t =>
    simp only [log_file_name, List.forall_mem_append]
    refine ⟨⟨⟨⟨⟨⟨⟨⟨⟨⟨⟨⟨⟨?_, ?_⟩, ?_⟩, ?_⟩, ?_⟩, ?_⟩, ?_⟩, ?_⟩, ?_⟩, ?_⟩, ?_⟩, ?_⟩, ?_⟩, ?_⟩
    all_goals first
      | exact hf _ _
      | exact hm
      | decide

theorem log_file_name_last (time : Option tm) (mcpu : CStr) :
    (log_file_name time mcpu).getLast? = some 'g' := by
  cases time <;> simp only [log_file_name] <;> rw [List.getLast?_append] <;> rfl

theorem splitOnP_append_word (a w : CStr) (hw : ∀ x ∈ w, isDelim x = false) :
    ∃ l u, (a ++ w).splitOnP isDelim = l ++ [u ++ w] := by
  induction a with
  | nil =>
    refine ⟨[], [], ?_⟩
    rw [List.nil_append, List.splitOnP_eq_single isDelim w (fun x hx => by simp [hw x hx])]
    rfl
  | cons x a ih =>
    obtain ⟨l, u, hl⟩ := ih
    rw [List.cons_append, List.splitOnP_cons, hl]
    by_cases hx : isDelim x = true
    · exact ⟨[] :: l, u, by simp [hx]⟩
    · cases l with
      | nil => exact ⟨[], x :: u, by simp [hx, List.modifyHead]⟩
      | cons h t => exact ⟨(x :: h) :: t, u, by simp [hx, List.modifyHead]⟩

theorem token_runs_append_word (a w : CStr) (hne : w ≠ [])
    (hw : ∀ x ∈ w, isDelim x = false) :
    ∃ u, (token_runs (a ++ w)).getLast? = some (u ++ w) := by
  obtain ⟨l, u, h⟩ := splitOnP_append_word a w hw
  refine ⟨u, ?_⟩
  have hu : u ++ w ≠ [] := by simp [hne]
  unfold token_runs
  rw [h, List.filter_append]
  simp [hu]

theorem mldproc_start_success (env : Env) (st : State) (n c : CStr)
    (h : (mldproc_start env st (some n) (some c)).1 = 0) :
    ∃ argv, split_cmd_line (compose_cmd env.time c (mcpu_of c)) MAX_ARGC = some argv ∧
      (mkpath env.stat_other env.mkdir_fails st.dirs (argv.getLast?.getD [])).1 = 0 ∧
      (mldproc_start env st (some n) (some c)).2.dirs =
        (mkpath env.stat_other env.mkdir_fails st.dirs (argv.getLast?.getD [])).2 := by
  by_cases hact : session_active n st.sessions = true
  · simp [mldproc_start, hact] at h
  cases hs : split_cmd_line (compose_cmd env.time c (mcpu_of c)) MAX_ARGC with
  | none => simp [mldproc_start, hact, hs] at h
  | some argv =>
  refine ⟨argv, rfl, ?_⟩
  by_cases hm : (mkpath env.stat_other env.mkdir_fails st.dirs (argv.getLast?.getD [])).1 = -1
  · simp [mldproc_start, hact, hs, hm] at h
  have hm0 : (mkpath env.stat_other env.mkdir_fails st.dirs (argv.getLast?.getD [])).1 = 0 := by
    rcases mkpath_rc env.stat_other env.mkdir_fails st.dirs (argv.getLast?.getD []) with h0 | h0
    · exact h0
    · exact absurd h0 hm
  refine ⟨hm0, ?_⟩
  cases ho : add_mld_option MLD_OPT_DONT_DEMONIZE argv with
  | none => simp [mldproc_start, hact, hs, hm, ho] at h
  | some argv1 =>
  cases hf : env.fork with
  | none => simp [mldproc_start, hact, hs, hm, ho, hf] at h
  | some pid =>
  rcases add_session_cases env pid n st.sessions with ha | ha
  · simp [mldproc_start, hact, hs, hm, ho, hf, ha]
  · simp [mldproc_start, hact, hs, hm, ho, hf, ha] at h

theorem start_last_argument (time : Option tm) (c : CStr) (argv : List CStr)
    (hlen : (c ++ (PATH_DELIM :: log_file_name time (mcpu_of c))).length < CMD_LINE_LENGTH)
    (hruns : (token_runs (compose_cmd time c (mcpu_of c))).length ≤ MAX_ARGC)
    (hs : split_cmd_line (compose_cmd time c (mcpu_of c)) MAX_ARGC = some argv) :
    ∃ u, argv.getLast? = some (u ++ PATH_DELIM :: log_file_name time (mcpu_of c)) := by
  have hw : ∀ x ∈ PATH_DELIM :: log_file_name time (mcpu_of c), isDelim x = false := by
    intro x hx
    rcases List.mem_cons.mp hx with rfl | hx
    · decide
    · exact log_file_name_not_delim time c x hx
  have hc : compose_cmd time c (mcpu_of c) =
      c ++ (PATH_DELIM :: log_file_name time (mcpu_of c)) := by
    rw [compose_cmd_eq, List.take_of_length_le]
    have : CMD_LINE_LENGTH = 256 := rfl
    omega
  obtain ⟨u, hu⟩ := token_runs_append_word c _ (by simp) hw
  refine ⟨u, ?_⟩
  rw [split_cmd_line_runs _ _ (by decide)] at hs
  split_ifs at hs with hnil
  simp only [Option.some.injEq] at hs
  rw [← hs, List.take_of_length_le hruns, hc, hu]

set_option maxRecDepth 100000 in
/-- C20, the claim as stated fails: the forwarding command line `cmd_clipped` has 242
characters, so the completed command line is cut to 255 characters in the middle of the
file name. The start succeeds (the line `TRACE -s s1 ` followed by `cmd_clipped` is
answered `OK`), the last argument is `t/2026-11-01_1`, which does not end in the generated
file name, and the directories created are `t` and `t/2026-11-01_1`: there is no directory
at the path of the log file, `t/2026-11-01_12h00m00s_.log`. Likewise for `cmd_many_words`,
whose completed command line has 65 words: the vector holds the first 64, the argument
handed to `mkpath` is the 64th word `a`, the start succeeds and the only directory created
is `a`. -/
theorem C20_mkpath_creates_log_path_counterexample :
    (client_line (env_ok 100) (init_state []) ("TRACE -s s1 ".toList ++ cmd_clipped)).2.2.2.1 =
        RES_OK ∧
      (mldproc_start (env_ok 100) (init_state []) (some "s1".toList) (some cmd_clipped)).1 = 0 ∧
      log_file_name (env_ok 100).time (mcpu_of cmd_clipped) =
        "2026-11-01_12h00m00s_.log".toList ∧
      (split_cmd_line (compose_cmd (env_ok 100).time cmd_clipped (mcpu_of cmd_clipped))
          MAX_ARGC).map (fun argv => argv.getLast?) =
        some (some "t/2026-11-01_1".toList) ∧
      (mldproc_start (env_ok 100) (init_state []) (some "s1".toList)
          (some cmd_clipped)).2.dirs = ["t".toList, "t/2026-11-01_1".toList] ∧
      "t/2026-11-01_12h00m00s_.log".toList ∉
        (mldproc_start (env_ok 100) (init_state []) (some "s1".toList)
          (some cmd_clipped)).2.dirs ∧
      (token_runs (compose_cmd (env_ok 100).time cmd_many_words
          (mcpu_of cmd_many_words))).length = 65 ∧
      (token_runs (compose_cmd (env_ok 100).time cmd_many_words
          (mcpu_of cmd_many_words))).getLast? = some "t/2026-11-01_12h00m00s_.log".toList ∧
      (client_line (env_ok 100) (init_state [])
          ("TRACE -s s1 ".toList ++ cmd_many_words)).2.2.2.1 = RES_OK ∧
      (split_cmd_line (compose_cmd (env_ok 100).time cmd_many_words (mcpu_of cmd_many_words))
          MAX_ARGC).map (fun argv => argv.getLast?) = some (some "a".toList) ∧
      (mldproc_start (env_ok 100) (init_state []) (some "s1".toList)
          (some cmd_many_words)) =
        (0, { init_state [] with
                sessions := [⟨100, "s1".toList⟩],
                dirs := ["a".toList],
                spawned := [(100, MLD_BIN :: "-d".toList :: List.replicate 62 "a".toList)] })
      := by
  decide

/-- C20 as amended: for every file system that is a set of directories (`stat` finds a
directory or fails with `ENOENT`) and every non-empty path `p` of fewer than 128
characters that does not end in `/`, a successful `mkpath` leaves every non-empty prefix
of `p` that ends just before a `/`, and `p` itself, as directories. And for every
successful `mldproc_start` in such a file system whose completed command line fits the
buffer uncut and has at most 64 words, the last argument, the one handed to `mkpath`,
ends in `/` and the generated log file name, and it is a directory afterwards: the start
has created a directory at the path of the log file. -/
theorem C20_mkpath_creates_log_path (other fails : CStr → Bool) (dirs : List CStr) (p : CStr)
    (hne : p ≠ []) (hlen : p.length < MAX_PATH_LEN) (hlast : p.getLast? ≠ some PATH_DELIM)
    (hset : ∀ q, other q = false) (hok : (mkpath other fails dirs p).1 = 0) :
    ((∀ j, 0 < j → p[j]? = some PATH_DELIM → p.take j ∈ (mkpath other fails dirs p).2) ∧
        p ∈ (mkpath other fails dirs p).2) ∧
      ∀ (env : Env) (st : State) (n c : CStr),
        (mldproc_start env st (some n) (some c)).1 = 0 →
        (∀ q, env.stat_other q = false) →
        (c ++ (PATH_DELIM :: log_file_name env.time (mcpu_of c))).length < CMD_LINE_LENGTH →
        (token_runs (compose_cmd env.time c (mcpu_of c))).length ≤ MAX_ARGC →
        ∃ argv u, split_cmd_line (compose_cmd env.time c (mcpu_of c)) MAX_ARGC = some argv ∧
          argv.getLast? = some (u ++ PATH_DELIM :: log_file_name env.time (mcpu_of c)) ∧
          u ++ PATH_DELIM :: log_file_name env.time (mcpu_of c) ∈
            (mldproc_start env st (some n) (some c)).2.dirs := by
  have hset' : ∀ (o : CStr → Bool), (∀ q, o q = false) → ∀ (d : List CStr) (q : CStr),
      (q ∈ d ∨ o q = true) → q ∈ d := by
    intro o ho d q hq
    rcases hq with hq | hq
    · exact hq
    · rw [ho q] at hq; exact absurd hq (by decide)
  refine ⟨⟨fun j hj hd => hset' other hset _ _ ((mkpath_creates other fails dirs p hok).1 j hj hd),
    hset' other hset _ _ ((mkpath_creates other fails dirs p hok).2 hlast)⟩, ?_⟩
  intro env st n c hrc henv hfit hruns
  obtain ⟨argv, hs, hm, hd⟩ := mldproc_start_success env st n c hrc
  obtain ⟨u, hu⟩ := start_last_argument env.time c argv hfit hruns hs
  refine ⟨argv, u, hs, hu, ?_⟩
  rw [hd]
  rw [hu] at hm ⊢
  simp only [Option.getD_some] at hm ⊢
  apply hset' env.stat_other henv
  apply (mkpath_creates _ _ _ _ hm).2
  have hg : (PATH_DELIM :: log_file_name env.time (mcpu_of c)).getLast? = some 'g' := by
    have := log_file_name_last env.time (mcpu_of c)
    cases hL : log_file_name env.time (mcpu_of c) with
    | nil => rw [hL] at this; simp at this
    | cons a l => rw [hL] at this; rw [List.getLast?_cons_cons]; exact this
  rw [List.getLast?_append, hg]
  simp [PATH_DELIM]

/-- C20 as amended, on `/tmp/logs/x.log` and on the start of `s1` with `mld -x /tmp/logs`:
the log file path `/tmp/logs/2026-11-01_12h00m00s_.log` is a directory afterwards. -/
theorem C20_mkpath_creates_log_path_witness :
    mkpath (fun _ => false) (fun _ => false) [] "/tmp/logs/x.log".toList =
        (0, ["/tmp".toList, "/tmp/logs".toList, "/tmp/logs/x.log".toList]) ∧
      "/tmp/logs/2026-11-01_12h00m00s_.log".toList ∈
        (mldproc_start (env_ok 100) (init_state []) (some "s1".toList)
          (some "mld -x /tmp/logs".toList)).2.dirs ∧
      ∃ argv u,
        split_cmd_line (compose_cmd (env_ok 100).time "mld -x /tmp/logs".toList
          (mcpu_of "mld -x /tmp/logs".toList)) MAX_ARGC = some argv ∧
        argv.getLast? = some (u ++ PATH_DELIM ::
          log_file_name (env_ok 100).time (mcpu_of "mld -x /tmp/logs".toList)) ∧
        u ++ PATH_DELIM :: log_file_name (env_ok 100).time
            (mcpu_of "mld -x /tmp/logs".toList) ∈
          (mldproc_start (env_ok 100) (init_state []) (some "s1".toList)
            (some "mld -x /tmp/logs".toList)).2.dirs :=
  ⟨by decide, by decide,
   (C20_mkpath_creates_log_path (fun _ => false) (fun _ => false) []
     "/tmp/logs/x.log".toList (by decide) (by decide) (by decide) (fun _ => rfl)
     (by decide)).2 (env_ok 100) (init_state []) "s1".toList
     "mld -x /tmp/logs".toList (by decide) (fun _ => rfl) (by decide) (by decide)⟩

theorem query_extent_le (len : Nat) (l : List session) (resp : CStr) (n : Nat)
    (hinv : resp.length + 1 ≤ n ∨ (resp = [] ∧ n = 0)) :
    query_extent len l resp n ≤ len := by
  induction l generalizing resp n with
  | nil => simp [query_extent]
  | cons p rest ih =>
    by_cases h1 : p.name.length + 1 + n ≥ len
    · simp [query_extent, h1]
    · have hrec := ih (if n > 0 then resp ++ " ".toList ++ p.name else resp ++ p.name)
        (n + (p.name.length + 1)) (by
          left
          split_ifs with hn
          · rcases hinv with hinv | ⟨_, hz⟩
            · simp; omega
            · omega
          · rcases hinv with hinv | ⟨hr, _⟩
            · omega
            · subst hr; simp)
      simp only [query_extent, h1, if_false]
      by_cases hn : n > 0
      · simp only [hn, if_true] at hrec ⊢
        rcases hinv with hinv | ⟨_, hz⟩
        · simp only [List.length_append, max_le_iff]
          refine ⟨by omega, by simp; omega, hrec⟩
        · omega
      · simp only [hn, if_false] at hrec ⊢
        rcases hinv with hinv | ⟨hr, _⟩
        · omega
        · subst hr
          simp only [List.length_nil, List.nil_append, max_le_iff] at hrec ⊢
          refine ⟨by omega, by omega, hrec⟩

theorem query_loop_success_length (len : Nat) (l : List session) (resp : CStr) (n : Nat)
    (hinv : resp.length + 1 ≤ n ∧ n < len)
    (h : (query_loop len l resp n).1 = 0) :
    (query_loop len l resp n).2.length + 2 ≤ len := by
  induction l generalizing resp n with
  | nil => simp only [query_loop]; omega
  | cons p rest ih =>
    by_cases h1 : p.name.length + 1 + n ≥ len
    · simp [query_loop, h1] at h
    · simp only [query_loop, h1, if_false] at h ⊢
      apply ih _ _ _ h
      refine ⟨?_, by omega⟩
      split_ifs <;> simp <;> omega

theorem mldproc_query_success_length (st : State) (len : Nat)
    (h : (mldproc_query st [] len).1 = 0) :
    (st.sessions = [] ∧ (mldproc_query st [] len).2 = []) ∨
      (mldproc_query st [] len).2.length + 2 ≤ len := by
  unfold mldproc_query at h ⊢
  cases hs : st.sessions with
  | nil => left; exact ⟨rfl, rfl⟩
  | cons p rest =>
    right
    rw [hs] at h
    by_cases h1 : p.name.length + 1 + 0 ≥ len
    · simp [query_loop, h1] at h
    · simp only [query_loop, h1, if_false, Nat.lt_irrefl, List.nil_append] at h ⊢
      exact query_loop_success_length len rest _ _ ⟨by omega, by omega⟩ h

/-- C19, the claim as stated fails: with an empty registry and a buffer length of 0 the
query returns 0 and leaves the empty string, whose length 0 is not at most `len - 2`. -/
theorem C19_query_bounds_counterexample :
    (mldproc_query (init_state []) [] 0).1 = 0 ∧
      ¬ ((mldproc_query (init_state []) [] 0).2.length + 2 ≤ 0) := by
  decide

/-- C19 as amended: for every registry and every buffer length `len`, with the response
buffer initially empty, `mldproc_query` writes no byte at or beyond index `len`; when it
returns 0, either the registry is empty and the string is still empty, or the length of
the string is at most `len - 2`; and with the handler's `len` of 256 every payload of a
successful query that is not empty passes the length guard of `send_response` and is
written, with its line feed, before `OK`. -/
theorem C19_query_bounds (st : State) (len : Nat) :
    query_extent len st.sessions [] 0 ≤ len ∧
      ((mldproc_query st [] len).1 = 0 →
        (st.sessions = [] ∧ (mldproc_query st [] len).2 = []) ∨
          (mldproc_query st [] len).2.length + 2 ≤ len) ∧
      ((mldproc_query st [] CMD_LINE_LENGTH).1 = 0 →
        (mldproc_query st [] CMD_LINE_LENGTH).2 ≠ [] →
        (mldproc_query st [] CMD_LINE_LENGTH).2.length + LINE_END.length < CMD_LINE_LENGTH ∧
        send_response none 0 (mldproc_query st [] CMD_LINE_LENGTH).2 CMD_LINE_LENGTH =
          (0, (mldproc_query st [] CMD_LINE_LENGTH).2 ++ LINE_END ++ RES_OK)) := by
  refine ⟨query_extent_le len st.sessions [] 0 (Or.inr ⟨rfl, rfl⟩),
    mldproc_query_success_length st len, ?_⟩
  intro h hne
  have hl : (mldproc_query st [] CMD_LINE_LENGTH).2.length + LINE_END.length <
      CMD_LINE_LENGTH := by
    rcases mldproc_query_success_length st CMD_LINE_LENGTH h with ⟨_, he⟩ | hl
    · exact absurd he hne
    · have : LINE_END.length = 1 := rfl
      omega
  refine ⟨hl, ?_⟩
  simp [send_response, send_buf, hne, hl]

theorem recv_line_loop_full (size : Nat) (ev : Int) (fuel : Nat) (stream line : CStr)
    (h : ¬ line.length + 1 ≤ size) :
    recv_line_loop size ev (fuel + 1) stream line = recv_line_loop size ev fuel stream [] := by
  simp [recv_line_loop, h]

theorem recv_line_loop_byte (size : Nat) (ev : Int) (fuel : Nat) (c : Char) (rest line : CStr)
    (h : line.length + 1 ≤ size) (hc : c ≠ ASCII_LF) :
    recv_line_loop size ev (fuel + 1) (c :: rest) line =
      recv_line_loop size ev fuel rest (line ++ [c]) := by
  simp [recv_line_loop, h, hc]

theorem recv_line_loop_feed (size : Nat) (ev : Int) (fuel : Nat) (rest line : CStr)
    (h : line.length + 1 ≤ size) :
    recv_line_loop size ev (fuel + 1) (ASCII_LF :: rest) line =
      some (((line.length + 1 : Nat) : Int), line ++ [ASCII_LF], rest) := by
  simp [recv_line_loop, h]

theorem recv_line_loop_end (size : Nat) (ev : Int) (fuel : Nat) (line : CStr)
    (h : line.length + 1 ≤ size) :
    recv_line_loop size ev (fuel + 1) [] line = some (ev, line, []) := by
  simp [recv_line_loop, h]

theorem recv_line_loop_lf (size : Nat) (ev : Int) (hsize : 1 ≤ size) (pre rest : CStr)
    (hpre : ASCII_LF ∉ pre) (line : CStr) (fuel : Nat) (hline : line.length ≤ size)
    (hfuel : 2 * pre.length + 2 ≤ fuel) :
    recv_line_loop size ev fuel (pre ++ ASCII_LF :: rest) line =
      some ((((line.length + pre.length) % size + 1 : Nat) : Int),
        (line ++ pre).drop
            (line.length + pre.length - (line.length + pre.length) % size) ++ [ASCII_LF],
        rest) := by
  induction pre generalizing line fuel with
  | nil =>
    obtain ⟨f, rfl⟩ : ∃ f, fuel = f + 2 := ⟨fuel - 2, by simp at hfuel; omega⟩
    simp only [List.nil_append, List.length_nil, Nat.add_zero, List.append_nil]
    by_cases hb : line.length + 1 ≤ size
    · rw [recv_line_loop_feed _ _ _ _ _ hb, Nat.mod_eq_of_lt (by omega)]
      simp
    · have he : line.length = size := by omega
      rw [recv_line_loop_full _ _ _ _ _ hb, recv_line_loop_feed _ _ _ _ _ (by simpa using hsize)]
      rw [he, Nat.mod_self]
      simp [← he]
  | cons c pre ih =>
    have hc : c ≠ ASCII_LF := fun e => hpre (by simp [e])
    have hp : ASCII_LF ∉ pre := fun e => hpre (by simp [e])
    obtain ⟨f, rfl⟩ : ∃ f, fuel = f + 2 := ⟨fuel - 2, by simp at hfuel; omega⟩
    simp only [List.length_cons] at hfuel
    simp only [List.cons_append, List.length_cons]
    by_cases hb : line.length + 1 ≤ size
    · rw [recv_line_loop_byte _ _ _ _ _ _ hb hc,
        ih hp (line ++ [c]) (f + 1) (by simpa using hb) (by omega)]
      simp only [List.length_append, List.length_singleton, List.append_assoc,
        List.singleton_append]
      rw [show line.length + 1 + pre.length = line.length + (pre.length + 1) by omega]
    · have he : line.length = size := by omega
      rw [recv_line_loop_full _ _ _ _ _ hb,
        recv_line_loop_byte _ _ _ _ _ _ (by simpa using hsize) hc,
        ih hp ([] ++ [c]) f (by simpa using hsize) (by omega)]
      simp only [List.nil_append, List.length_singleton, List.singleton_append]
      have hm : (line.length + (pre.length + 1)) % size = (1 + pre.length) % size := by
        rw [he, Nat.add_mod_left, Nat.add_comm]
      have hle : (1 + pre.length) % size ≤ 1 + pre.length := Nat.mod_le _ _
      rw [hm]
      have hd : line.length + (pre.length + 1) - (1 + pre.length) % size =
          line.length + (1 + pre.length - (1 + pre.length) % size) := by omega
      rw [hd, List.drop_append]

theorem recv_line_loop_no_lf (size : Nat) (ev : Int) (hsize : 1 ≤ size) (stream : CStr)
    (hs : ASCII_LF ∉ stream) (line : CStr) (fuel : Nat) (hline : line.length ≤ size)
    (hfuel : 2 * stream.length + 2 ≤ fuel) :
    ∃ buf, recv_line_loop size ev fuel stream line = some (ev, buf, []) := by
  induction stream generalizing line fuel with
  | nil =>
    obtain ⟨f, rfl⟩ : ∃ f, fuel = f + 2 := ⟨fuel - 2, by simp at hfuel; omega⟩
    by_cases hb : line.length + 1 ≤ size
    · exact ⟨line, recv_line_loop_end _ _ _ _ hb⟩
    · refine ⟨[], ?_⟩
      rw [recv_line_loop_full _ _ _ _ _ hb, recv_line_loop_end _ _ _ _ (by simpa using hsize)]
  | cons c s ih =>
    have hc : c ≠ ASCII_LF := fun e => hs (by simp [e])
    have hp : ASCII_LF ∉ s := fun e => hs (by simp [e])
    obtain ⟨f, rfl⟩ : ∃ f, fuel = f + 2 := ⟨fuel - 2, by simp at hfuel; omega⟩
    simp only [List.length_cons] at hfuel
    by_cases hb : line.length + 1 ≤ size
    · rw [recv_line_loop_byte _ _ _ _ _ _ hb hc]
      exact ih hp (line ++ [c]) (f + 1) (by simpa using hb) (by omega)
    · rw [recv_line_loop_full _ _ _ _ _ hb,
        recv_line_loop_byte _ _ _ _ _ _ (by simpa using hsize) hc]
      exact ih hp ([] ++ [c]) f (by simpa using hsize) (by omega)

theorem recv_line_lf (size : Nat) (ev : Int) (hsize : 1 ≤ size) (pre rest : CStr)
    (hpre : ASCII_LF ∉ pre) :
    recv_line ev (pre ++ ASCII_LF :: rest) size =
      some (((pre.length % size + 1 : Nat) : Int),
        pre.drop (pre.length - pre.length % size) ++ [ASCII_LF], rest) := by
  unfold recv_line
  rw [if_neg (by omega)]
  have := recv_line_loop_lf size ev hsize pre rest hpre [] _ (by simp)
    (show 2 * pre.length + 2 ≤ 2 * (pre ++ ASCII_LF :: rest).length + 2 by simp)
  simpa using this

theorem recv_line_positive (size : Nat) (ev : Int) (hev : ev ≤ 0) (stream : CStr)
    (r : Int) (buf rest : CStr) (h : recv_line ev stream size = some (r, buf, rest))
    (hr : 0 < r) :
    ∃ pre, stream = pre ++ ASCII_LF :: rest ∧ ASCII_LF ∉ pre ∧ 1 ≤ size ∧
      r = ((pre.length % size + 1 : Nat) : Int) ∧
      buf = pre.drop (pre.length - pre.length % size) ++ [ASCII_LF] := by
  by_cases hsize : size < 1
  · simp [recv_line, hsize] at h
    omega
  · have hs1 : 1 ≤ size := by omega
    by_cases hmem : ASCII_LF ∈ stream
    · obtain ⟨pre, post, hst, hpre⟩ := List.eq_append_cons_of_mem hmem
      subst hst
      rw [recv_line_lf size ev hs1 pre post hpre] at h
      simp only [Option.some.injEq, Prod.mk.injEq] at h
      obtain ⟨h1, h2, h3⟩ := h
      subst h3
      exact ⟨pre, rfl, hpre, hs1, h1.symm, h2.symm⟩
    · exfalso
      obtain ⟨b, hb⟩ := recv_line_loop_no_lf size ev hs1 stream hmem [] _ (by simp)
        (Nat.le_refl _)
      unfold recv_line at h
      rw [if_neg hsize, hb] at h
      simp only [Option.some.injEq, Prod.mk.injEq] at h
      omega

/-- C18: for every buffer size `size ≥ 1` and every stream whose first line feed is at
index `k`, `recv_line` returns `(k mod size) + 1`, with the stream's bytes from index
`k - (k mod size)` to `k` as the first bytes of the buffer and the bytes after the line
feed left unread. Hence every positive return value `r` is at most `size`, the buffer
holds `r` bytes of the line and a line feed at index `r - 1`, and that value is again
`(k mod size) + 1` for the index `k` of the first line feed: the bytes before the last
block of `size` bytes are dropped and no error is returned. -/
theorem C18_recv_line (size : Nat) (ev : Int) (pre rest : CStr) (hsize : 1 ≤ size)
    (hpre : ASCII_LF ∉ pre) :
    recv_line ev (pre ++ ASCII_LF :: rest) size =
        some (((pre.length % size + 1 : Nat) : Int),
          pre.drop (pre.length - pre.length % size) ++ [ASCII_LF], rest) ∧
      ∀ (stream : CStr) (r : Int) (buf rest' : CStr), ev ≤ 0 →
        recv_line ev stream size = some (r, buf, rest') → 0 < r →
        1 ≤ r ∧ r ≤ (size : Int) ∧ (buf.length : Int) = r ∧
          buf[r.toNat - 1]? = some ASCII_LF := by
  refine ⟨recv_line_lf size ev hsize pre rest hpre, ?_⟩
  intro stream r buf rest' hev h hr
  obtain ⟨p, _, _, hs1, hrv, hbuf⟩ := recv_line_positive size ev hev stream r buf rest' h hr
  have hmod : p.length % size < size := Nat.mod_lt _ (by omega)
  have hle : p.length % size ≤ p.length := Nat.mod_le _ _
  have hlen : buf.length = p.length % size + 1 := by
    rw [hbuf]; simp; omega
  refine ⟨by omega, by omega, by omega, ?_⟩
  have hidx : r.toNat - 1 = (p.drop (p.length - p.length % size)).length := by
    rw [hrv]; simp; omega
  rw [hidx, hbuf]
  simp

/-- C18 with a buffer of 4 bytes: the line `abcdefgh` has its line feed at index 8, the
return value is 1 and the buffer begins with the line feed alone; the line `abcdef` has
it at index 6, the return value is 3 and the buffer begins with `ef` and the line feed. -/
theorem C18_recv_line_witness :
    recv_line 0 "abcdefgh\nxyz".toList 4 = some (1, "\n".toList, "xyz".toList) ∧
      recv_line 0 "abcdef\nxyz".toList 4 = some (3, "ef\n".toList, "xyz".toList) ∧
      (recv_line 0 ("abcdef".toList ++ ASCII_LF :: "xyz".toList) 4 =
          some (((("abcdef".toList).length % 4 + 1 : Nat) : Int),
            ("abcdef".toList).drop (("abcdef".toList).length - ("abcdef".toList).length % 4)
              ++ [ASCII_LF], "xyz".toList) ∧
        ∀ (stream : CStr) (r : Int) (buf rest' : CStr), (0 : Int) ≤ 0 →
          recv_line 0 stream 4 = some (r, buf, rest') → 0 < r →
          1 ≤ r ∧ r ≤ ((4 : Nat) : Int) ∧ (buf.length : Int) = r ∧
            buf[r.toNat - 1]? = some ASCII_LF) :=
  ⟨by decide, by decide, C18_recv_line 4 0 "abcdef".toList "xyz".toList (by decide) (by decide)⟩

theorem send_response_no_failure (status : Int) (resp : CStr) (size : Nat) :
    (send_response none status resp size).1 = 0 := by
  unfold send_response
  split_ifs <;> simp [send_buf]

theorem client_iteration_line (env : Env) (ev : Int) (st : State) (pre rest : CStr)
    (hpre : ASCII_LF ∉ pre) :
    ∃ it, client_iteration env ev st (pre ++ ASCII_LF :: rest) = some it ∧
      it.command = some (c_string
        (pre.drop (pre.length - pre.length % CMD_LINE_LENGTH))) ∧
      it.rest = rest ∧
      it.out = (client_line env st (c_string
        (pre.drop (pre.length - pre.length % CMD_LINE_LENGTH)))).2.2.2.1 ∧
      it.st = (client_line env st (c_string
        (pre.drop (pre.length - pre.length % CMD_LINE_LENGTH)))).2.2.2.2 ∧
      (env.send_budget = none → it.goes_on = true) := by
  have hr := recv_line_lf CMD_LINE_LENGTH ev (by decide) pre rest hpre
  have hle : pre.length % CMD_LINE_LENGTH ≤ pre.length := Nat.mod_le _ _
  have htake : (pre.drop (pre.length - pre.length % CMD_LINE_LENGTH) ++ [ASCII_LF]).take
      ((((pre.length % CMD_LINE_LENGTH + 1 : Nat) : Int)).toNat - 1) =
      pre.drop (pre.length - pre.length % CMD_LINE_LENGTH) := by
    have : (((pre.length % CMD_LINE_LENGTH + 1 : Nat) : Int)).toNat - 1 =
        (pre.drop (pre.length - pre.length % CMD_LINE_LENGTH)).length := by
      simp; omega
    rw [this, List.take_left]
  have h0 : ¬ (((pre.length % CMD_LINE_LENGTH + 1 : Nat) : Int) = 0) := by omega
  have h1 : ¬ (((pre.length % CMD_LINE_LENGTH + 1 : Nat) : Int) < 0) := by omega
  unfold client_iteration
  rw [hr]
  simp only [h0, h1, if_false, htake]
  by_cases hs : (client_line env st (c_string
      (pre.drop (pre.length - pre.length % CMD_LINE_LENGTH)))).2.2.1 = -1
  · rw [if_pos hs]
    refine ⟨_, rfl, rfl, rfl, rfl, rfl, ?_⟩
    intro hb
    exfalso
    simp only [client_line, hb] at hs
    rw [send_response_no_failure] at hs
    exact absurd hs (by decide)
  · rw [if_neg hs]
    exact ⟨_, rfl, rfl, rfl, rfl, rfl, fun _ => rfl⟩

set_option maxRecDepth 100000 in
/-- C11, the claim as stated fails: in `stream_oversize` 264 bytes arrive before the first
line feed, `recv_line` returns the positive length 9 for it with `TRACE -q` in the
buffer, and the iteration of the handler loop dispatches `TRACE -q`, answers `OK` and
goes on. -/
theorem C11_oversize_line_counterexample :
    stream_oversize = (List.replicate 256 'x' ++ "TRACE -q".toList) ++ ASCII_LF :: [] ∧
      ASCII_LF ∉ List.replicate 256 'x' ++ "TRACE -q".toList ∧
      256 < (List.replicate 256 'x' ++ "TRACE -q".toList).length ∧
      recv_line 0 stream_oversize 256 = some (9, "TRACE -q\n".toList, []) ∧
      client_iteration (env_ok 100) 0 (init_state []) stream_oversize =
        some ⟨true, some "TRACE -q".toList, "OK\n".toList, init_state [], []⟩ := by
  decide

/-- C11 as amended: for every stream in which more than 256 bytes arrive before the first
line feed, at index `k`, `recv_line` returns the positive length `(k mod 256) + 1`; the
iteration of the handler loop dispatches the bytes from index `k - (k mod 256)` up to the
line feed as the command, the bytes before them being dropped, and, when the socket
accepts the response, the loop goes on with the bytes after the line feed. -/
theorem C11_oversize_line (env : Nat → Env) (ev : Int) (st : State) (pre rest : CStr)
    (hpre : ASCII_LF ∉ pre) (hlong : CMD_LINE_LENGTH < pre.length) :
    recv_line ev (pre ++ ASCII_LF :: rest) CMD_LINE_LENGTH =
        some (((pre.length % CMD_LINE_LENGTH + 1 : Nat) : Int),
          pre.drop (pre.length - pre.length % CMD_LINE_LENGTH) ++ [ASCII_LF], rest) ∧
      (0 : Int) < ((pre.length % CMD_LINE_LENGTH + 1 : Nat) : Int) ∧
      ∀ i : Nat, ∃ it, client_iteration (env i) ev st (pre ++ ASCII_LF :: rest) = some it ∧
        it.command = some (c_string
          (pre.drop (pre.length - pre.length % CMD_LINE_LENGTH))) ∧
        it.rest = rest ∧
        ((env i).send_budget = none →
          it.goes_on = true ∧
          ∀ (fuel : Nat) (out : CStr),
            client_thread_loop env ev (fuel + 1) i st (pre ++ ASCII_LF :: rest) out =
              client_thread_loop env ev fuel (i + 1) it.st rest (out ++ it.out)) := by
  refine ⟨recv_line_lf CMD_LINE_LENGTH ev (by decide) pre rest hpre, by omega, ?_⟩
  intro i
  obtain ⟨it, h1, h2, h3, _, _, h6⟩ := client_iteration_line (env i) ev st pre rest hpre
  refine ⟨it, h1, h2, h3, ?_⟩
  intro hb
  refine ⟨h6 hb, ?_⟩
  intro fuel out
  simp only [client_thread_loop, h1, h6 hb, if_true, h3]

set_option maxRecDepth 100000 in
/-- C11 as amended, on `stream_oversize` followed by a second line. -/
theorem C11_oversize_line_witness :
    ASCII_LF ∉ List.replicate 256 'x' ++ "TRACE -q".toList ∧
      CMD_LINE_LENGTH < (List.replicate 256 'x' ++ "TRACE -q".toList).length ∧
      recv_line 0 ((List.replicate 256 'x' ++ "TRACE -q".toList) ++
          ASCII_LF :: "TRACE -c\n".toList) CMD_LINE_LENGTH =
        some (((((List.replicate 256 'x' ++ "TRACE -q".toList).length % CMD_LINE_LENGTH + 1
            : Nat)) : Int),
          (List.replicate 256 'x' ++ "TRACE -q".toList).drop
            ((List.replicate 256 'x' ++ "TRACE -q".toList).length -
              (List.replicate 256 'x' ++ "TRACE -q".toList).length % CMD_LINE_LENGTH)
            ++ [ASCII_LF], "TRACE -c\n".toList) ∧
      client_thread_loop (fun _ => env_ok 100) 0 3 0 (init_state [])
          ((List.replicate 256 'x' ++ "TRACE -q".toList) ++
            ASCII_LF :: "TRACE -c\n".toList) [] =
        some (init_state [], "OK\n/sdcard/mld.conf\nOK\n".toList, 3) :=
  ⟨by decide, by decide,
   (C11_oversize_line (fun _ => env_ok 100) 0 (init_state [])
     (List.replicate 256 'x' ++ "TRACE -q".toList) "TRACE -c\n".toList (by decide)
     (by decide)).1,
   by decide⟩

/-- C12, the code on four connections that arrive before the first handler thread has run
`inc_ref_count`: each `accept_connection` still reads a counter below 3, so all four are
admitted, and after the four handlers have entered the counter is 4 and four admitted
connections are live. -/
theorem C12_counter_exceeds_limit :
    (run_events server_init [accept_ok 4, accept_ok 5, accept_ok 6]).started = [4, 5, 6] ∧
      (run_events server_init [accept_ok 4, accept_ok 5, accept_ok 6, accept_ok 7]).started =
        [4, 5, 6, 7] ∧
      (run_events server_init four_quick_connections).ref_count = 4 ∧
      (run_events server_init four_quick_connections).running = [4, 5, 6, 7] ∧
      (run_events server_init four_quick_connections).open_fds = [4, 5, 6, 7] := by
  decide

/-- C13, the code on a connection accepted while the counter is 3: no handler is started
and the cell that held the descriptor is freed, but the descriptor itself is still open
after the iteration of the accept loop. -/
theorem C13_refused_socket_stays_open :
    (run_events server_init three_connections).ref_count = 3 ∧
      (run_events server_init (three_connections ++ [accept_ok 7])).started = [] ∧
      (run_events server_init (three_connections ++ [accept_ok 7])).running = [4, 5, 6] ∧
      (run_events server_init (three_connections ++ [accept_ok 7])).cells = [4, 5, 6] ∧
      7 ∈ (run_events server_init (three_connections ++ [accept_ok 7])).open_fds := by
  decide

end DIP
